import Mathlib

/-!
# ZomboDB `utils.c`: plan introspection, transaction-id encoding, JSON trimming

A shallow embedding of the routines of `src/c/utils/utils.c` that inspect the
executor's plan-state tree (`find_limit_for_scan`, `find_sort_and_limit_for_scan`),
encode transaction identifiers (`convert_xid`) and trim a JSON buffer
(`strip_json_ending`), followed by theorems about them.

Conventions of the embedding:

* machine integers are natural numbers, reduced modulo `2 ^ 64` or `2 ^ 32`
  where the C arithmetic can wrap;
* a C string is a `List Char`; a possibly-NULL pointer is an `Option`;
* a pointer used only for identity (`IndexScanDesc`) is a natural number;
* reading through a NULL pointer or past the end of an array is a `Fault`;
* the plan tree and the plan-state tree have the same shape (the executor builds
  one state node per plan node), so one tree type carries the fields of both and
  `plan->lefttree` is the plan of `planstate->lefttree`.
-/

namespace ZDB

/-! ## `strip_json_ending` -/

/-- Outcome of `strip_json_ending`: the buffer it returns, the `ereport(ERROR)` it
raises, or a read outside the buffer. -/
inductive StripResult where
  | returned (str : List Char)
  | improper_json
  | out_of_bounds
  deriving DecidableEq, Repr

/-- The loop `while (--len) { switch (str[len]) ... }` of `strip_json_ending`, entered
with the value `len` has after the decrement of the loop test: `0` leaves the loop
and reaches `ereport(ERROR, "improper JSON format")`; otherwise `str[len]` is read,
a closing brace is overwritten with a space and the buffer returned, and any other
character leads to the next decrement. -/
def strip_json_ending_loop (str : List Char) : Nat → StripResult
  | 0 => .improper_json
  | i + 1 =>
    match str[i + 1]? with
    | none => .out_of_bounds
    | some c =>
      if c = '}' then .returned (str.set (i + 1) ' ')
      else strip_json_ending_loop str i

/-- The routine `char *strip_json_ending(char *str, int len)`.  The first `--len` of a
non-positive `len` is negative, hence nonzero, and `str[len]` is read before the
start of the buffer. -/
def strip_json_ending (str : List Char) (len : Int) : StripResult :=
  if len - 1 < 0 then .out_of_bounds
  else strip_json_ending_loop str (len - 1).toNat

/-! ## `convert_xid` -/

/-- The `typedef struct { TransactionId last_xid; uint32 epoch; } TxidEpoch`, as filled
in by the host's `GetNextXidAndEpoch`. -/
structure TxidEpoch where
  last_xid : Nat
  epoch : Nat
  deriving DecidableEq, Repr

/-- Modelled from the spec: the host's `FirstNormalTransactionId`; the identifiers
below it are the special (sentinel) ones. -/
def FirstNormalTransactionId : Nat := 3

/-- Modelled from the spec: the host's `TransactionIdIsNormal(xid)`, true of every
identifier that is not a special one. -/
def TransactionIdIsNormal (xid : Nat) : Bool :=
  decide (FirstNormalTransactionId ≤ xid)

/-- The C conversion `(int32) w` of a 32-bit unsigned word. -/
def toInt32 (w : Nat) : Int :=
  if w % 2 ^ 32 < 2 ^ 31 then ((w % 2 ^ 32 : Nat) : Int)
  else ((w % 2 ^ 32 : Nat) : Int) - 2 ^ 32

/-- The C difference `id1 - id2` of two `uint32` values. -/
def sub32 (id1 id2 : Nat) : Nat :=
  (id1 % 2 ^ 32 + 2 ^ 32 - id2 % 2 ^ 32) % 2 ^ 32

/-- Modelled from the spec: the host's wraparound-aware `TransactionIdPrecedes`, a
signed circular-distance comparison over the 32-bit identifier width; when either
identifier is special the host compares them as plain unsigned numbers. -/
def TransactionIdPrecedes (id1 id2 : Nat) : Bool :=
  if !TransactionIdIsNormal id1 || !TransactionIdIsNormal id2 then decide (id1 < id2)
  else decide (toInt32 (sub32 id1 id2) < 0)

/-- Modelled from the spec: the host's wraparound-aware `TransactionIdFollows`, the
mirror image of `TransactionIdPrecedes`. -/
def TransactionIdFollows (id1 id2 : Nat) : Bool :=
  if !TransactionIdIsNormal id1 || !TransactionIdIsNormal id2 then decide (id1 > id2)
  else decide (toInt32 (sub32 id1 id2) > 0)

/-- The C expression `(epoch << 32) | xid` on `uint64` operands. -/
def shift_or (epoch xid : Nat) : Nat :=
  ((epoch <<< 32) % 2 ^ 64) ||| xid

/-- The routine `uint64 convert_xid(TransactionId xid)`, with the `(last_xid, epoch)` pair that
`GetNextXidAndEpoch` returns passed in as `state`.  `epoch--` and `epoch++` act on
a `uint64` and wrap modulo `2 ^ 64`. -/
def convert_xid (state : TxidEpoch) (xid : Nat) : Nat :=
  if !TransactionIdIsNormal xid then xid
  else
    let epoch := state.epoch
    let epoch :=
      if xid > state.last_xid && TransactionIdPrecedes xid state.last_xid then
        (epoch + 2 ^ 64 - 1) % 2 ^ 64
      else if xid < state.last_xid && TransactionIdFollows xid state.last_xid then
        (epoch + 1) % 2 ^ 64
      else epoch
    shift_or epoch xid

/-- The epoch the reference definition of the encoder selects: one less than the
current epoch for an identifier numerically above the high-water mark that
logically precedes it, one more for an identifier numerically below it that
logically follows it, the current epoch otherwise (64-bit unsigned arithmetic). -/
def reference_epoch (state : TxidEpoch) (xid : Nat) : Nat :=
  if state.last_xid < xid ∧ TransactionIdPrecedes xid state.last_xid = true then
    (state.epoch + 2 ^ 64 - 1) % 2 ^ 64
  else if xid < state.last_xid ∧ TransactionIdFollows xid state.last_xid = true then
    (state.epoch + 1) % 2 ^ 64
  else state.epoch

/-- Reference definition of the encoder, following the specification: a special
identifier is returned unchanged, any other one as `(e << 32) | xid` with `e` the
selected epoch. -/
def convert_xid_reference (state : TxidEpoch) (xid : Nat) : Nat :=
  if TransactionIdIsNormal xid = true then
    ((reference_epoch state xid <<< 32) % 2 ^ 64) ||| xid
  else xid

/-! ## The plan-state tree -/

/-- A PostgreSQL object identifier (`Oid`, a `uint32`). -/
abbrev Oid := Nat

/-- A PostgreSQL `Datum`, a machine word. -/
abbrev Datum := Nat

/-- An attribute or target-list position (`AttrNumber`, an `int16`). -/
abbrev AttrNumber := Int

/-- The address of an index-scan descriptor; the walkers only compare it. -/
abbrev IndexScanDesc := Nat

/-- A NUL-terminated C string, without its terminator. -/
abbrev CString := List Char

/-- Modelled from the spec: the host's `InvalidOid`. -/
def InvalidOid : Oid := 0

/-- Modelled from the spec: the host's `InvalidAttrNumber`, returned by `get_attnum`
for a name that is no attribute of the relation. -/
def InvalidAttrNumber : AttrNumber := 0

/-- Modelled from the spec: the host's type id of `text` (free text). -/
def TEXTOID : Oid := 25

/-- Modelled from the spec: the host's type id of `text[]` (array of text). -/
def TEXTARRAYOID : Oid := 1009

/-- Modelled from the spec: the host's type id of `bytea` (raw byte blob). -/
def BYTEAOID : Oid := 17

/-- The host's `typedef enum SortByDir`. -/
inductive SortByDir where
  | SORTBY_DEFAULT
  | SORTBY_ASC
  | SORTBY_DESC
  | SORTBY_USING
  deriving DecidableEq, Repr

/-- A fault of the C code that a plan tree can provoke. -/
inductive Fault where
  | null_dereference
  | out_of_bounds
  deriving DecidableEq, Repr

/-- An expression node: a `Const` with its `constvalue`, or any other node, kept
as an identifier that the catalog functions interpret. -/
inductive Expr where
  | Const (constvalue : Datum)
  | Other (id : Nat)
  deriving DecidableEq, Repr

/-- A `TargetEntry`: an output expression and its position `resno`. -/
structure TargetEntry where
  expr : Expr
  resno : AttrNumber
  deriving DecidableEq, Repr

/-- The node tag of a plan node with the tag-specific fields the walkers read.
`IndexScan` carries `iss_ScanDesc`, the descriptor held by the state node of the
scan. -/
inductive PlanNode where
  | Limit (limitCount : Option Expr) (limitOffset : Option Expr)
  | Sort (sortColIdx : List AttrNumber) (sortOperators : List Oid)
  | Result
  | IndexScan (iss_ScanDesc : IndexScanDesc)
  | Other
  deriving DecidableEq, Repr

/-- The fields of `Plan` common to all node kinds that the walkers read. -/
structure Plan where
  node : PlanNode
  targetlist : List TargetEntry
  deriving DecidableEq, Repr

/-- A `PlanState` with its plan node and every child link `planstate_tree_walker`
follows: the init-plans, `lefttree`, `righttree`, the members of a node with a
child list (Append, ModifyTable, SubqueryScan, ...) and the sub-plans. -/
inductive PlanState where
  | mk (plan : Plan) (initPlan : List PlanState) (lefttree : Option PlanState)
      (righttree : Option PlanState) (special : List PlanState) (subPlan : List PlanState)

namespace PlanState

/-- The field `planstate->plan`. -/
def plan : PlanState → Plan
  | .mk p _ _ _ _ _ => p

/-- The field `planstate->lefttree`, which is also the state of `plan->lefttree`. -/
def lefttree : PlanState → Option PlanState
  | .mk _ _ l _ _ _ => l

end PlanState

/-- The host facilities the walkers call: `exprType`, the `gt_opr` of
`lookup_type_cache`, `deparse_expression` in the deparse context of the query,
`get_attnum`, `get_atttype`, `get_element_type`, and the relation id of
`scan->heapRelation`. -/
structure Catalog where
  exprType : Expr → Oid
  gt_opr : Oid → Oid
  deparse_expression : Expr → CString
  get_attnum : Oid → CString → AttrNumber
  get_atttype : Oid → AttrNumber → Oid
  get_element_type : Oid → Oid
  heapRelid : IndexScanDesc → Oid

/-- The `typedef struct LimitInfo`. -/
structure LimitInfo where
  desc : IndexScanDesc
  limit : Nat
  deriving DecidableEq, Repr

/-- The `typedef struct SortInfo`. -/
structure SortInfo where
  desc : IndexScanDesc
  limit : Nat
  attname : Option CString
  direction : SortByDir
  deriving DecidableEq, Repr

/-- The host's `DatumGetUInt64`: a `Datum` read as a `uint64`. -/
def DatumGetUInt64 (d : Datum) : Nat := d % 2 ^ 64

/-- The routine `Oid get_base_type_oid(Oid typeOid)`: the element type of an array
type, the type itself otherwise. -/
def get_base_type_oid (cat : Catalog) (typeOid : Oid) : Oid :=
  let rc := cat.get_element_type typeOid
  if rc = InvalidOid then typeOid else rc

/-- Modelled from the spec: the host's `get_tle_by_resno`, the first entry of the
target list whose `resno` is the given one, or NULL. -/
def get_tle_by_resno (tlist : List TargetEntry) (resno : AttrNumber) : Option TargetEntry :=
  tlist.find? (fun tle => decide (tle.resno = resno))

/-- Whether `needle` starts the string `hay`. -/
def starts_with : CString → CString → Bool
  | _, [] => true
  | [], _ :: _ => false
  | h :: hs, n :: ns => decide (h = n) && starts_with hs ns

/-- The test `strstr(hay, needle) != 0`: `needle` occurs in `hay`. -/
def strstr : CString → CString → Bool
  | [], needle => starts_with [] needle
  | h :: hs, needle => starts_with (h :: hs) needle || strstr hs needle

/-- The literal `"zdb_score"`. -/
def zdb_score : CString := ['z', 'd', 'b', '_', 's', 'c', 'o', 'r', 'e']

/-- The C idiom `if (walker(child, context)) return true;` followed by the rest of
`planstate_tree_walker`. -/
def and_then {σ : Type} (r : Except Fault (Bool × σ))
    (rest : σ → Except Fault (Bool × σ)) : Except Fault (Bool × σ) :=
  match r with
  | .error e => .error e
  | .ok (true, c) => .ok (true, c)
  | .ok (false, c) => rest c

/- Both walkers of `utils.c` have the form
   `<inspect this node>; return planstate_tree_walker(planstate, <this walker>, context);`
   The traversal below takes the inspection as `visit` and unfolds the callback. -/
mutual
/-- Modelled from the spec: the host's `planstate_tree_walker`, which is not among
the sources of this repository, unfolded into the walker that calls it.  The walker
inspects the node with `visit` and then hands every child link to itself, in the
host's order: init-plans, `lefttree`, `righttree`, the members of a node with a
child list, sub-plans; it returns true as soon as one call does. -/
def walker {σ : Type} (visit : PlanState → σ → Except Fault σ) :
    PlanState → σ → Except Fault (Bool × σ)
  | .mk plan initPlan lefttree righttree special subPlan, context =>
    match visit (.mk plan initPlan lefttree righttree special subPlan) context with
    | .error e => .error e
    | .ok c0 =>
      and_then (walk_list visit initPlan c0) fun c1 =>
      and_then (walk_child visit lefttree c1) fun c2 =>
      and_then (walk_child visit righttree c2) fun c3 =>
      and_then (walk_list visit special c3) fun c4 =>
      walk_list visit subPlan c4
/-- Modelled from the spec: the part of the host's `planstate_tree_walker` that
runs the walker over a list of child states, stopping at the first true. -/
def walk_list {σ : Type} (visit : PlanState → σ → Except Fault σ) :
    List PlanState → σ → Except Fault (Bool × σ)
  | [], context => .ok (false, context)
  | ps :: rest, context => and_then (walker visit ps context) (walk_list visit rest)
/-- Modelled from the spec: the part of the host's `planstate_tree_walker` that
runs the walker on `lefttree` or `righttree`, skipped when the link is NULL. -/
def walk_child {σ : Type} (visit : PlanState → σ → Except Fault σ) :
    Option PlanState → σ → Except Fault (Bool × σ)
  | none, context => .ok (false, context)
  | some ps, context => walker visit ps context
end

/-- The body of `find_limit_for_scan_walker` before its call of
`planstate_tree_walker`. -/
def find_limit_visit (planstate : PlanState) (context : LimitInfo) : Except Fault LimitInfo :=
  match planstate.plan.node with
  | .Limit (some (.Const constvalue)) none =>
    match planstate.lefttree with
    | none => .error .null_dereference
    | some child =>
      match child.plan.node with
      | .IndexScan iss_ScanDesc =>
        if iss_ScanDesc = context.desc then
          .ok { context with limit := DatumGetUInt64 constvalue }
        else .ok context
      | _ => .ok context
  | _ => .ok context

/-- The routine `static bool find_limit_for_scan_walker(PlanState *planstate, LimitInfo *context)`
on a non-NULL `planstate`. -/
def find_limit_for_scan_walker : PlanState → LimitInfo → Except Fault (Bool × LimitInfo) :=
  walker find_limit_visit

/-- The routine `uint64 find_limit_for_scan(IndexScanDesc scan)`; `currentQuery` is the
`planstate` of the first entry of `currentQueryStack`. -/
def find_limit_for_scan (currentQuery : Option PlanState) (scan : IndexScanDesc) :
    Except Fault Nat :=
  let li : LimitInfo := { desc := scan, limit := 0 }
  match currentQuery with
  | none => .ok li.limit
  | some planstate =>
    match find_limit_for_scan_walker planstate li with
    | .error e => .error e
    | .ok (_, li) => .ok li.limit

/-- The body of `find_sort_for_scan_walker` before its call of
`planstate_tree_walker`. -/
def find_sort_visit (cat : Catalog) (planstate : PlanState) (context : SortInfo) :
    Except Fault SortInfo :=
  match planstate.plan.node with
  | .Limit (some (.Const constvalue)) none =>
    match planstate.lefttree with
    | none => .error .null_dereference
    | some child =>
      match child.plan.node with
      | .Result =>
        match child.lefttree with
        | none => .error .null_dereference
        | some grandchild =>
          match grandchild.plan.node with
          | .Sort _ _ => .ok { context with limit := DatumGetUInt64 constvalue }
          | _ => .ok context
      | .Sort _ _ => .ok { context with limit := DatumGetUInt64 constvalue }
      | _ => .ok context
  | .Sort sortColIdx sortOperators =>
    match planstate.lefttree with
    | none => .error .null_dereference
    | some child =>
      match child.plan.node with
      | .IndexScan iss_ScanDesc =>
        if iss_ScanDesc = context.desc then
          match sortColIdx with
          | [] => .error .out_of_bounds
          | idx :: _ =>
            match get_tle_by_resno planstate.plan.targetlist idx with
            | none => .error .null_dereference
            | some te =>
              match sortOperators with
              | [] => .error .out_of_bounds
              | op :: _ =>
                .ok { context with
                      attname := some (cat.deparse_expression te.expr)
                      direction :=
                        if op = cat.gt_opr (cat.exprType te.expr) then .SORTBY_DESC
                        else .SORTBY_ASC }
        else .ok context
      | _ => .ok context
  | _ => .ok context

/-- The routine `static bool find_sort_for_scan_walker(PlanState *planstate, SortInfo *context)`
on a non-NULL `planstate`. -/
def find_sort_for_scan_walker (cat : Catalog) :
    PlanState → SortInfo → Except Fault (Bool × SortInfo) :=
  walker (find_sort_visit cat)

/-- What `find_sort_and_limit_for_scan` hands back: the returned string and the
contents of `*direction` and `*limit` on return. -/
structure SortAndLimit where
  attname : Option CString
  direction : SortByDir
  limit : Nat
  deriving DecidableEq, Repr

/-- The routine `char *find_sort_and_limit_for_scan(IndexScanDesc scan, SortByDir *direction,
uint64 *limit)`; `direction` and `limit` are the contents of the two out-parameters
on entry, which every path that does not assign them leaves in place. -/
def find_sort_and_limit_for_scan (cat : Catalog) (currentQuery : Option PlanState)
    (scan : IndexScanDesc) (direction : SortByDir) (limit : Nat) :
    Except Fault SortAndLimit :=
  let si0 : SortInfo :=
    { desc := scan, limit := 0, attname := none, direction := .SORTBY_DEFAULT }
  let walked : Except Fault (Bool × SortInfo) :=
    match currentQuery with
    | none => .ok (false, si0)
    | some planstate => find_sort_for_scan_walker cat planstate si0
  match walked with
  | .error e => .error e
  | .ok (_, si) =>
    match si.attname with
    | none => .ok { attname := none, direction := direction, limit := limit }
    | some attname =>
      if strstr attname zdb_score then
        .ok { attname := none, direction := si.direction, limit := si.limit }
      else
        let attno := cat.get_attnum (cat.heapRelid scan) attname
        if attno = InvalidAttrNumber then
          .ok { attname := none, direction := direction, limit := limit }
        else
          let typeid := get_base_type_oid cat (cat.get_atttype (cat.heapRelid scan) attno)
          if typeid = TEXTOID ∨ typeid = TEXTARRAYOID ∨ typeid = BYTEAOID then
            .ok { attname := none, direction := direction, limit := limit }
          else
            .ok { attname := some attname, direction := si.direction, limit := si.limit }


/-! ## Vocabulary for statements about plan trees -/

mutual
/-- The nodes of a plan-state tree, in the order the walkers visit them. -/
def nodes : PlanState → List PlanState
  | .mk plan initPlan lefttree righttree special subPlan =>
    .mk plan initPlan lefttree righttree special subPlan ::
      (nodes_list initPlan ++ nodes_child lefttree ++ nodes_child righttree ++
        nodes_list special ++ nodes_list subPlan)
/-- The nodes of a list of trees. -/
def nodes_list : List PlanState → List PlanState
  | [] => []
  | ps :: rest => nodes ps ++ nodes_list rest
/-- The nodes below a possibly-NULL child link. -/
def nodes_child : Option PlanState → List PlanState
  | none => []
  | some ps => nodes ps
end

/-- The inspections of a walker applied to a sequence of nodes, threading the
context and stopping at the first fault. -/
def run_visits {σ : Type} (visit : PlanState → σ → Except Fault σ) :
    List PlanState → σ → Except Fault σ
  | [], context => .ok context
  | ps :: rest, context =>
    match visit ps context with
    | .error e => .error e
    | .ok c => run_visits visit rest c

/-- The result of a traversal that was not stopped early. -/
def completed {σ : Type} (r : Except Fault σ) : Except Fault (Bool × σ) :=
  match r with
  | .error e => .error e
  | .ok c => .ok (false, c)

/-- The node is an index scan whose state holds the descriptor `scan`. -/
def is_scan_of (scan : IndexScanDesc) (ps : PlanState) : Bool :=
  match ps.plan.node with
  | .IndexScan iss_ScanDesc => decide (iss_ScanDesc = scan)
  | _ => false

/-- The child link is not NULL and leads to the index scan with descriptor `scan`. -/
def child_is_scan (scan : IndexScanDesc) : Option PlanState → Bool
  | some child => is_scan_of scan child
  | none => false

/-- The direct child (`lefttree`) of the node is the index scan with descriptor
`scan`. -/
def over_scan (scan : IndexScanDesc) (ps : PlanState) : Bool :=
  child_is_scan scan ps.lefttree

/-- The node is a Limit. -/
def is_limit (ps : PlanState) : Bool :=
  match ps.plan.node with
  | .Limit _ _ => true
  | _ => false

/-- The node is a Limit with the constant count `count` and no offset whose direct
child is the index scan with descriptor `scan`. -/
def limit_binds (scan : IndexScanDesc) (count : Datum) (ps : PlanState) : Prop :=
  ps.plan.node = .Limit (some (.Const count)) none ∧ over_scan scan ps = true

/-- The number of index-scan nodes of the tree that carry the descriptor `scan`. -/
def scan_count (scan : IndexScanDesc) (t : PlanState) : Nat :=
  (nodes t).countP (is_scan_of scan)

/-- The direction `find_sort_for_scan_walker` derives from the first sort operator
`op` of a Sort whose first key is the target entry `te`. -/
def derived_direction (cat : Catalog) (te : TargetEntry) (op : Oid) : SortByDir :=
  if op = cat.gt_opr (cat.exprType te.expr) then .SORTBY_DESC else .SORTBY_ASC

/-- The type a column has "after unwrapping an array type to its element type", in
the words of the specification and independently of the code: for an array type
(one for which the host's `get_element_type` names an element type) the element
type, for any other type the type itself. -/
def array_unwrapped_type (cat : Catalog) (typeOid : Oid) : Oid :=
  if cat.get_element_type typeOid ≠ InvalidOid then cat.get_element_type typeOid
  else typeOid

/-- The array-unwrapped type of the heap column `name` of the scan is one the
sortability policy accepts: none of text, text[], bytea. -/
def sortable_column (cat : Catalog) (scan : IndexScanDesc) (name : CString) : Prop :=
  let typeid := array_unwrapped_type cat
    (cat.get_atttype (cat.heapRelid scan) (cat.get_attnum (cat.heapRelid scan) name))
  typeid ≠ TEXTOID ∧ typeid ≠ TEXTARRAYOID ∧ typeid ≠ BYTEAOID

instance (cat : Catalog) (scan : IndexScanDesc) (name : CString) :
    Decidable (sortable_column cat scan name) := by
  unfold sortable_column
  infer_instance

/-- The tree that is exactly `Limit(count, no offset) -> Sort -> IndexScan(scan)`,
for arbitrary sort keys, sort operators and target lists. -/
def limit_sort_scan (count : Datum) (limit_tlist : List TargetEntry)
    (sortColIdx : List AttrNumber) (sortOperators : List Oid) (sort_tlist : List TargetEntry)
    (scan : IndexScanDesc) (scan_tlist : List TargetEntry) : PlanState :=
  .mk { node := .Limit (some (.Const count)) none, targetlist := limit_tlist } []
    (some (.mk { node := .Sort sortColIdx sortOperators, targetlist := sort_tlist } []
      (some (.mk { node := .IndexScan scan, targetlist := scan_tlist } [] none none [] []))
      none [] []))
    none [] []

/-- The node is a Sort. -/
def is_sort (ps : PlanState) : Bool :=
  match ps.plan.node with
  | .Sort _ _ => true
  | _ => false

/-- The first key of a Sort node: the target entry that `sortColIdx[0]` names in the
node's target list, with the first sort operator; nothing for a node that is not a
Sort, has no key or operator, or whose first key index names no target entry. -/
def first_sort_key (ps : PlanState) : Option (TargetEntry × Oid) :=
  match ps.plan.node with
  | .Sort (idx :: _) (op :: _) =>
    match get_tle_by_resno ps.plan.targetlist idx with
    | some te => some (te, op)
    | none => none
  | _ => none

/-- The node is a Sort whose direct child is the index scan with descriptor `scan`
and whose first key is the target entry `te` with operator `op`. -/
def sort_binds (scan : IndexScanDesc) (te : TargetEntry) (op : Oid) (ps : PlanState) : Prop :=
  over_scan scan ps = true ∧ first_sort_key ps = some (te, op)

/-- The node is a Limit with a literal count and no offset: the only Limit nodes
whose input the two walkers look at. -/
def is_literal_limit (ps : PlanState) : Bool :=
  match ps.plan.node with
  | .Limit (some (.Const _)) none => true
  | _ => false

/-- Every Limit with a literal count and no offset has its input subtree, as every
Limit the executor initialises has. -/
def limit_inputs_present (t : PlanState) : Prop :=
  ∀ L ∈ nodes t, is_literal_limit L = true → L.lefttree.isSome = true

instance (t : PlanState) : Decidable (limit_inputs_present t) := by
  unfold limit_inputs_present
  infer_instance

/-- The node is one at which the inspection of `find_sort_for_scan_walker` reads no
NULL link and no missing array element.  Three shapes are ruled out, and nothing
else: a Limit with a literal count and no offset that has no input; a Sort that has
no input, or that sits directly over the index scan with descriptor `scan` and has
no first key; and a Limit with a literal count and no offset directly over a Result
without input.  The first two never leave the planner and the executor.  The third
does: it is the plan of `SELECT 1 LIMIT 1`, so this predicate is no invariant of
plan trees. -/
def sort_walk_safe_node (scan : IndexScanDesc) (ps : PlanState) : Bool :=
  match ps.plan.node with
  | .Limit (some (.Const _)) none =>
    match ps.lefttree with
    | none => false
    | some child =>
      match child.plan.node with
      | .Result => child.lefttree.isSome
      | _ => true
  | .Sort _ _ =>
    match ps.lefttree with
    | none => false
    | some child => !is_scan_of scan child || (first_sort_key ps).isSome
  | _ => true

/-- Every node of the tree is one the inspection of `find_sort_for_scan_walker`
reads without a fault. -/
def sort_walk_safe (scan : IndexScanDesc) (t : PlanState) : Prop :=
  ∀ n ∈ nodes t, sort_walk_safe_node scan n = true

instance (scan : IndexScanDesc) (t : PlanState) : Decidable (sort_walk_safe scan t) := by
  unfold sort_walk_safe
  infer_instance

/-! ## Sample catalog and plan trees -/

/-- The column name `price`. -/
def price_name : CString := ['p', 'r', 'i', 'c', 'e']
/-- The column name `description`. -/
def description_name : CString := ['d', 'e', 's', 'c', 'r', 'i', 'p', 't', 'i', 'o', 'n']

/-- A catalog with a heap relation `(price int4, description text)`: expression 1
is the column `price`, expression 2 the column `description`, expression 3 the
relevance score; `int4gt` is operator 521, `text_gt` 666, `float4gt` 623. -/
def sample_catalog : Catalog where
  exprType := fun e =>
    match e with
    | .Other 1 => 23
    | .Other 2 => 25
    | .Other 3 => 700
    | _ => 0
  gt_opr := fun t => if t = 23 then 521 else if t = 25 then 666 else if t = 700 then 623 else 0
  deparse_expression := fun e =>
    match e with
    | .Other 1 => price_name
    | .Other 2 => description_name
    | .Other 3 => zdb_score
    | _ => []
  get_attnum := fun _ name =>
    if name = price_name then 1 else if name = description_name then 2 else 0
  get_atttype := fun _ attno => if attno = 1 then 23 else if attno = 2 then 25 else 0
  get_element_type := fun t => if t = 1009 then 25 else if t = 1007 then 23 else 0
  heapRelid := fun _ => 16384

/-- A leaf `IndexScan` state holding the descriptor `desc`. -/
def index_scan (desc : IndexScanDesc) : PlanState :=
  .mk { node := .IndexScan desc, targetlist := [] } [] none none [] []

/-- A `Sort` on the single key `key` (target-list position 1) with comparison
operator `op`, over `child`. -/
def sort_on (key : Expr) (op : Oid) (child : PlanState) : PlanState :=
  .mk { node := .Sort [1] [op], targetlist := [{ expr := key, resno := 1 }] }
    [] (some child) none [] []

/-- A `Limit` with the constant count `count` and no offset, over `child`. -/
def limit_of (count : Datum) (child : PlanState) : PlanState :=
  .mk { node := .Limit (some (.Const count)) none, targetlist := [] }
    [] (some child) none [] []

/-- An `Append` over the given members. -/
def append_of (members : List PlanState) : PlanState :=
  .mk { node := .Other, targetlist := [] } [] none none members []

/-- The tree `Limit(count = 5, offset = 3) -> IndexScan(7)`. -/
def limit_offset_tree : PlanState :=
  .mk { node := .Limit (some (.Const 5)) (some (.Const 3)), targetlist := [] }
    [] (some (index_scan 7)) none [] []

/-- The tree `Limit(10) -> Sort(price, int4gt) -> IndexScan(7)`. -/
def limit_sort_price_tree : PlanState :=
  limit_of 10 (sort_on (.Other 1) 521 (index_scan 7))

/-- The tree `Limit(10) -> Sort(description, text_gt) -> IndexScan(7)`. -/
def limit_sort_description_tree : PlanState :=
  limit_of 10 (sort_on (.Other 2) 666 (index_scan 7))

/-- The plan of `(... ORDER BY price LIMIT 20) UNION ALL (... ORDER BY price LIMIT 10)`
over two index scans with descriptors 7 and 8. -/
def union_tree : PlanState :=
  append_of [limit_of 20 (sort_on (.Other 1) 521 (index_scan 7)),
             limit_of 10 (sort_on (.Other 1) 521 (index_scan 8))]

/-- A `Sort` without sort keys directly over `IndexScan(7)`. -/
def keyless_sort_tree : PlanState :=
  .mk { node := .Sort [] [], targetlist := [] } [] (some (index_scan 7)) none [] []


/-- A `Sort` whose first key index 2 names no entry of its one-entry target list,
directly over `IndexScan(7)`. -/
def dangling_key_tree : PlanState :=
  .mk { node := .Sort [2] [521], targetlist := [{ expr := .Other 1, resno := 1 }] }
    [] (some (index_scan 7)) none [] []

/-- The tree `Limit(count = <expression 9>) -> Sort(price, int4gt) -> IndexScan(7)`: the count
is not a literal. -/
def computed_limit_tree : PlanState :=
  .mk { node := .Limit (some (.Other 9)) none, targetlist := [] }
    [] (some (sort_on (.Other 1) 521 (index_scan 7))) none [] []

/-- The tree `Sort(zdb_score, float4gt) -> IndexScan(7)`. -/
def sort_score_tree : PlanState :=
  sort_on (.Other 3) 623 (index_scan 7)

/-- The column name `zdb_score_note`. -/
def zdb_score_note_name : CString :=
  ['z', 'd', 'b', '_', 's', 'c', 'o', 'r', 'e', '_', 'n', 'o', 't', 'e']

/-- The sample catalog with a third heap column `zdb_score_note text`, which is
expression 4. -/
def score_note_catalog : Catalog where
  exprType := fun e =>
    match e with
    | .Other 4 => 25
    | _ => sample_catalog.exprType e
  gt_opr := sample_catalog.gt_opr
  deparse_expression := fun e =>
    match e with
    | .Other 4 => zdb_score_note_name
    | _ => sample_catalog.deparse_expression e
  get_attnum := fun rel name =>
    if name = zdb_score_note_name then 3 else sample_catalog.get_attnum rel name
  get_atttype := fun rel attno => if attno = 3 then 25 else sample_catalog.get_atttype rel attno
  get_element_type := sample_catalog.get_element_type
  heapRelid := sample_catalog.heapRelid

/-- The plan of `SELECT 1 LIMIT 1`: a Limit with the literal count 1 over a Result
that has no input. -/
def select_one_limit_one : PlanState :=
  limit_of 1 (.mk { node := .Result, targetlist := [] } [] none none [] [])

/-- The tree `Sort(price, int4gt) -> IndexScan(7)` whose Sort node carries the
init-plan `SELECT 1 LIMIT 1`, as in
`SELECT .. WHERE .. AND id = (SELECT 1 LIMIT 1) ORDER BY price DESC`. -/
def order_by_price_with_initplan : PlanState :=
  .mk { node := .Sort [1] [521], targetlist := [{ expr := .Other 1, resno := 1 }] }
    [select_one_limit_one] (some (index_scan 7)) none [] []

/-- The tree `Limit(10) -> Sort(zdb_score, float4gt) -> IndexScan(7)` whose Limit
node carries the init-plan `SELECT 1 LIMIT 1`. -/
def top_by_score_with_initplan : PlanState :=
  .mk { node := .Limit (some (.Const 10)) none, targetlist := [] }
    [select_one_limit_one] (some (sort_on (.Other 3) 623 (index_scan 7))) none [] []

/-- A Limit with the literal count 5 and no offset that has no input subtree. -/
def inputless_limit_tree : PlanState :=
  .mk { node := .Limit (some (.Const 5)) none, targetlist := [] } [] none none [] []

/-- A Sort on `price` that has no input subtree. -/
def inputless_sort_tree : PlanState :=
  .mk { node := .Sort [1] [521], targetlist := [{ expr := .Other 1, resno := 1 }] }
    [] none none [] []

/-- The tree `Limit(count = <expression 9>) -> Result`, the Result without input: the
count is not a literal. -/
def computed_limit_over_result : PlanState :=
  .mk { node := .Limit (some (.Other 9)) none, targetlist := [] }
    [] (some (.mk { node := .Result, targetlist := [] } [] none none [] [])) none [] []

/-! ## Theorems: `strip_json_ending` -/

/-- C10: the documented behaviour (replace the last closing brace by a space) is
missed when the only closing brace is the first character of the buffer: the loop
`while (--len)` never reads `str[0]`, so on the one-character buffer holding a
closing brace the routine raises "improper JSON format" instead of returning the
buffer with the brace replaced. -/
theorem strip_json_ending_misses_index_zero :
    strip_json_ending ['}'] 1 = StripResult.improper_json ∧
    strip_json_ending ['}', 'a'] 2 = StripResult.improper_json ∧
    strip_json_ending ['a', '}'] 2 = StripResult.returned ['a', ' '] := by
  decide

theorem strip_json_ending_loop_last_brace (str : List Char) (k : Nat) (hk : 1 ≤ k)
    (hbrace : str[k]? = some '}') :
    ∀ i, k ≤ i → i < str.length → (∀ j, k < j → j ≤ i → str[j]? ≠ some '}') →
      strip_json_ending_loop str i = StripResult.returned (str.set k ' ')
  | 0, hki, _, _ => by omega
  | i + 1, hki, hi, hlast => by
    unfold strip_json_ending_loop
    by_cases hkeq : k = i + 1
    · subst hkeq
      simp [hbrace]
    · have hget : str[i + 1]? = some str[i + 1] := List.getElem?_eq_getElem hi
      have hne : str[i + 1] ≠ '}' := by
        intro h
        exact hlast (i + 1) (by omega) (Nat.le_refl _) (by rw [hget, h])
      simp only [hget, hne, if_false]
      exact strip_json_ending_loop_last_brace str k hk hbrace i (by omega) (by omega)
        (fun j hj1 hj2 => hlast j hj1 (by omega))

/-- Away from index 0 the routine does what its comment says: when the last closing
brace of the buffer is at an index `k ≥ 1`, the buffer is returned with exactly
that character replaced by a space. -/
theorem strip_json_ending_replaces_last_brace (str : List Char) (k : Nat) (hk : 1 ≤ k)
    (hbrace : str[k]? = some '}')
    (hlast : ∀ j, k < j → str[j]? ≠ some '}') :
    strip_json_ending str str.length = StripResult.returned (str.set k ' ') := by
  have hklt : k < str.length := by
    by_contra hcon
    rw [List.getElem?_eq_none (by omega)] at hbrace
    cases hbrace
  unfold strip_json_ending
  have hpos : ¬ ((str.length : Int) - 1 < 0) := by omega
  rw [if_neg hpos]
  have hnat : ((str.length : Int) - 1).toNat = str.length - 1 := by omega
  rw [hnat]
  exact strip_json_ending_loop_last_brace str k hk hbrace (str.length - 1) (by omega)
    (by omega) (fun j hj _ => hlast j hj)

/-! ## Theorems: `convert_xid` -/

/-- C7: `convert_xid` equals its reference definition for every identifier and
every allocator state: a special identifier is returned as it is, any other one
as `(e << 32) | xid` where `e` is the epoch minus one, plus one, or unchanged
according to the numeric and the logical order of `xid` and `last_xid`. -/
theorem convert_xid_eq_reference (state : TxidEpoch) (xid : Nat) :
    convert_xid state xid = convert_xid_reference state xid := by
  unfold convert_xid convert_xid_reference reference_epoch shift_or
  cases hn : TransactionIdIsNormal xid
  · simp
  · by_cases h1 : state.last_xid < xid ∧ TransactionIdPrecedes xid state.last_xid = true
    · simp [h1]
    · by_cases h2 : xid < state.last_xid ∧ TransactionIdFollows xid state.last_xid = true
      · have h3 : ¬ (state.last_xid < xid) := by omega
        simp [h2, h3]
      · simp only [Bool.not_true, Bool.false_eq_true, if_false, gt_iff_lt, Bool.and_eq_true,
          decide_eq_true_eq, h1, h2, if_true]

/-- C8 as stated fails in epoch 0: for the state `(last_xid = 5, epoch = 0)` and
the normal identifier `2^32 - 3`, numerically above and logically before
`last_xid`, the decrement of the 64-bit epoch wraps and the encoding is not below
the encoding `(0 << 32) | 0` of the current epoch. -/
theorem convert_xid_epoch_zero_not_below :
    TransactionIdIsNormal (2 ^ 32 - 3) = true ∧ 5 < 2 ^ 32 - 3 ∧
    TransactionIdPrecedes (2 ^ 32 - 3) 5 = true ∧
    convert_xid { last_xid := 5, epoch := 0 } (2 ^ 32 - 3) = 2 ^ 64 - 3 ∧
    ¬ (convert_xid { last_xid := 5, epoch := 0 } (2 ^ 32 - 3) < shift_or 0 0) := by
  decide

/-- C8, amended: in every allocator state whose epoch is at least 1, a normal
32-bit identifier numerically above `last_xid` that logically precedes it is
encoded with `epoch - 1`, and the encoding is strictly below `(epoch << 32) | y`
for every 32-bit identifier `y`. -/
theorem convert_xid_previous_epoch (state : TxidEpoch) (xid : Nat)
    (hxid : xid < 2 ^ 32) (hepoch : state.epoch < 2 ^ 32) (hpos : 1 ≤ state.epoch)
    (hnormal : TransactionIdIsNormal xid = true) (habove : state.last_xid < xid)
    (hprecedes : TransactionIdPrecedes xid state.last_xid = true) :
    convert_xid state xid = shift_or (state.epoch - 1) xid ∧
    ∀ y, y < 2 ^ 32 → convert_xid state xid < shift_or state.epoch y := by
  have hdec : (state.epoch + 18446744073709551615) % 18446744073709551616 =
      state.epoch - 1 := by omega
  have hval : convert_xid state xid = shift_or (state.epoch - 1) xid := by
    simp [convert_xid, hnormal, habove, hprecedes, hdec]
  refine ⟨hval, ?_⟩
  intro y hy
  rw [hval]
  unfold shift_or
  rw [Nat.shiftLeft_eq, Nat.shiftLeft_eq]
  have h1 : (state.epoch - 1) * 2 ^ 32 % 2 ^ 64 = 2 ^ 32 * (state.epoch - 1) := by omega
  have h2 : state.epoch * 2 ^ 32 % 2 ^ 64 = 2 ^ 32 * state.epoch := by omega
  rw [h1, h2, ← Nat.mul_add_lt_is_or hxid, ← Nat.mul_add_lt_is_or hy]
  omega

/-- The amended C8 at `last_xid = 5`, `epoch = 7`, `xid = 2^32 - 3`. -/
theorem convert_xid_previous_epoch_witness :
    convert_xid { last_xid := 5, epoch := 7 } (2 ^ 32 - 3) = shift_or (7 - 1) (2 ^ 32 - 3) ∧
    ∀ y, y < 2 ^ 32 →
      convert_xid { last_xid := 5, epoch := 7 } (2 ^ 32 - 3) < shift_or 7 y :=
  convert_xid_previous_epoch { last_xid := 5, epoch := 7 } (2 ^ 32 - 3)
    (by decide) (by decide) (by decide) (by decide) (by decide) (by decide)


/-! ## The walkers as a fold over the nodes in visiting order -/

theorem run_visits_append {σ : Type} (visit : PlanState → σ → Except Fault σ)
    (xs ys : List PlanState) (c : σ) :
    run_visits visit (xs ++ ys) c =
      match run_visits visit xs c with
      | .error e => .error e
      | .ok c1 => run_visits visit ys c1 := by
  induction xs generalizing c with
  | nil => rfl
  | cons x xs ih =>
    simp only [List.cons_append, run_visits]
    cases visit x c with
    | error e => rfl
    | ok c1 => exact ih c1

theorem and_then_completed {σ : Type} (visit : PlanState → σ → Except Fault σ)
    (xs ys : List PlanState) (c : σ) (rest : σ → Except Fault (Bool × σ))
    (hrest : ∀ c1, rest c1 = completed (run_visits visit ys c1)) :
    and_then (completed (run_visits visit xs c)) rest =
      completed (run_visits visit (xs ++ ys) c) := by
  rw [run_visits_append]
  cases run_visits visit xs c with
  | error e => rfl
  | ok c1 => simp only [completed, and_then, hrest]

mutual
theorem walker_eq_run_visits {σ : Type} (visit : PlanState → σ → Except Fault σ) :
    ∀ (ps : PlanState) (c : σ), walker visit ps c = completed (run_visits visit (nodes ps) c)
  | .mk plan initPlan lefttree righttree special subPlan, c => by
    rw [walker, nodes, run_visits]
    cases visit (.mk plan initPlan lefttree righttree special subPlan) c with
    | error e => rfl
    | ok c0 =>
      simp only [List.append_assoc]
      rw [walk_list_eq_run_visits visit initPlan c0]
      apply and_then_completed
      intro c1
      rw [walk_child_eq_run_visits visit lefttree c1]
      apply and_then_completed
      intro c2
      rw [walk_child_eq_run_visits visit righttree c2]
      apply and_then_completed
      intro c3
      rw [walk_list_eq_run_visits visit special c3]
      rw [← List.append_nil (nodes_list subPlan)]
      apply and_then_completed
      intro c4
      rw [walk_list_eq_run_visits visit subPlan c4, List.append_nil]
theorem walk_list_eq_run_visits {σ : Type} (visit : PlanState → σ → Except Fault σ) :
    ∀ (l : List PlanState) (c : σ),
      walk_list visit l c = completed (run_visits visit (nodes_list l) c)
  | [], c => by simp [walk_list, nodes_list, run_visits, completed]
  | ps :: rest, c => by
    rw [walk_list, nodes_list, walker_eq_run_visits visit ps c]
    apply and_then_completed
    intro c1
    exact walk_list_eq_run_visits visit rest c1
theorem walk_child_eq_run_visits {σ : Type} (visit : PlanState → σ → Except Fault σ) :
    ∀ (o : Option PlanState) (c : σ),
      walk_child visit o c = completed (run_visits visit (nodes_child o) c)
  | none, c => by simp [walk_child, nodes_child, run_visits, completed]
  | some ps, c => by
    rw [walk_child, nodes_child]
    exact walker_eq_run_visits visit ps c
end

theorem root_mem_nodes : ∀ t : PlanState, t ∈ nodes t
  | .mk _ _ _ _ _ _ => by rw [nodes]; exact List.mem_cons_self _ _

/-! ## A scan has one parent: nodes over the scan are no more than the scans -/

mutual
theorem count_over_scan_le (scan : IndexScanDesc) :
    ∀ ps : PlanState,
      (nodes ps).countP (over_scan scan) + (if is_scan_of scan ps = true then 1 else 0) ≤
        (nodes ps).countP (is_scan_of scan)
  | .mk plan initPlan lefttree righttree special subPlan => by
    have h1 := count_over_scan_le_list scan initPlan
    have h2 := count_over_scan_le_child scan lefttree
    have h3 := count_over_scan_le_child scan righttree
    have h4 := count_over_scan_le_list scan special
    have h5 := count_over_scan_le_list scan subPlan
    have ho : over_scan scan (.mk plan initPlan lefttree righttree special subPlan) =
        child_is_scan scan lefttree := rfl
    rw [nodes]
    simp only [List.countP_cons, List.countP_append, ho]
    omega
theorem count_over_scan_le_list (scan : IndexScanDesc) :
    ∀ l : List PlanState,
      (nodes_list l).countP (over_scan scan) ≤ (nodes_list l).countP (is_scan_of scan)
  | [] => by simp [nodes_list]
  | ps :: rest => by
    have h1 := count_over_scan_le scan ps
    have h2 := count_over_scan_le_list scan rest
    rw [nodes_list]
    simp only [List.countP_append]
    omega
theorem count_over_scan_le_child (scan : IndexScanDesc) :
    ∀ o : Option PlanState,
      (nodes_child o).countP (over_scan scan) + (if child_is_scan scan o = true then 1 else 0) ≤
        (nodes_child o).countP (is_scan_of scan)
  | none => by simp [nodes_child, child_is_scan]
  | some ps => by
    have h1 := count_over_scan_le scan ps
    rw [nodes_child]
    simpa [child_is_scan] using h1
end

/-- In a tree with at most one index scan for `scan`, at most one node has that
scan as its direct child. -/
theorem count_over_scan_le_one (scan : IndexScanDesc) (t : PlanState)
    (hunique : scan_count scan t ≤ 1) : (nodes t).countP (over_scan scan) ≤ 1 := by
  have h := count_over_scan_le scan t
  unfold scan_count at hunique
  omega

/-! ## `find_limit_for_scan` -/

theorem find_limit_visit_binds (L : PlanState) (context : LimitInfo) (count : Datum)
    (h : limit_binds context.desc count L) :
    find_limit_visit L context = .ok { context with limit := DatumGetUInt64 count } := by
  obtain ⟨hnode, hover⟩ := h
  unfold over_scan child_is_scan at hover
  unfold find_limit_visit
  rw [hnode]
  cases hl : L.lefttree with
  | none => simp [hl] at hover
  | some child =>
    simp only [hl, is_scan_of] at hover
    cases hc : child.plan.node <;> simp_all

theorem find_limit_visit_other (L : PlanState) (context : LimitInfo)
    (hinput : is_limit L = true → L.lefttree.isSome = true)
    (h : ∀ count, ¬ limit_binds context.desc count L) :
    find_limit_visit L context = .ok context := by
  unfold find_limit_visit
  split
  · rename_i constvalue hnode
    have hlim : is_limit L = true := by simp [is_limit, hnode]
    have hsome := hinput hlim
    cases hl : L.lefttree with
    | none => simp [hl] at hsome
    | some child =>
      simp only
      split
      · rename_i d hd
        by_cases hdd : d = context.desc
        · exfalso
          apply h constvalue
          refine ⟨hnode, ?_⟩
          simp [over_scan, child_is_scan, hl, is_scan_of, hd, hdd]
        · simp [hdd]
      · rfl
  · rfl

theorem run_limit_visits_none (scan : IndexScanDesc) :
    ∀ (l : List PlanState) (context : LimitInfo), context.desc = scan →
      (∀ L ∈ l, is_limit L = true → L.lefttree.isSome = true) →
      (∀ L ∈ l, ∀ count, ¬ limit_binds scan count L) →
      run_visits find_limit_visit l context = .ok context
  | [], _, _, _, _ => rfl
  | x :: xs, context, hdesc, hinput, hnone => by
    have hx : find_limit_visit x context = .ok context :=
      find_limit_visit_other x context (hinput x (List.mem_cons_self _ _))
        (by rw [hdesc]; exact hnone x (List.mem_cons_self _ _))
    rw [run_visits, hx]
    exact run_limit_visits_none scan xs context hdesc
      (fun L hL => hinput L (List.mem_cons_of_mem _ hL))
      (fun L hL => hnone L (List.mem_cons_of_mem _ hL))

theorem run_limit_visits_binds (scan : IndexScanDesc) :
    ∀ (l : List PlanState) (context : LimitInfo), context.desc = scan →
      (∀ L ∈ l, is_limit L = true → L.lefttree.isSome = true) →
      l.countP (over_scan scan) ≤ 1 →
      ∀ L ∈ l, ∀ count, limit_binds scan count L →
        run_visits find_limit_visit l context =
          .ok { context with limit := DatumGetUInt64 count }
  | [], _, _, _, _, L, hL, _, _ => by simp at hL
  | x :: xs, context, hdesc, hinput, hcount, L, hL, count, hbinds => by
    have hinput_xs : ∀ L ∈ xs, is_limit L = true → L.lefttree.isSome = true :=
      fun L hL => hinput L (List.mem_cons_of_mem _ hL)
    rw [List.countP_cons] at hcount
    by_cases hx : over_scan scan x = true
    · have hzero : xs.countP (over_scan scan) = 0 := by
        simp only [hx, if_true] at hcount
        omega
      have hfree : ∀ M ∈ xs, over_scan scan M = false := by
        intro M hM
        cases hM2 : over_scan scan M with
        | false => rfl
        | true =>
          have := List.countP_pos_iff.mpr ⟨M, hM, hM2⟩
          omega
      have hLx : L = x := by
        rcases List.mem_cons.mp hL with h | h
        · exact h
        · have := hfree L h
          rw [hbinds.2] at this
          cases this
      subst hLx
      have hvisit := find_limit_visit_binds L context count (by rw [hdesc]; exact hbinds)
      rw [run_visits, hvisit]
      refine run_limit_visits_none scan xs { context with limit := DatumGetUInt64 count }
        hdesc hinput_xs ?_
      intro M hM c hc
      have := hfree M hM
      rw [hc.2] at this
      cases this
    · have hLxs : L ∈ xs := by
        rcases List.mem_cons.mp hL with h | h
        · subst h
          exact absurd hbinds.2 hx
        · exact h
      have hvisit : find_limit_visit x context = .ok context :=
        find_limit_visit_other x context (hinput x (List.mem_cons_self _ _))
          (by rw [hdesc]; exact fun c hc => hx hc.2)
      rw [run_visits, hvisit]
      have hcount_xs : xs.countP (over_scan scan) ≤ 1 := by omega
      exact run_limit_visits_binds scan xs context hdesc hinput_xs hcount_xs L hLxs count hbinds

theorem find_limit_for_scan_eq (t : PlanState) (scan : IndexScanDesc) :
    find_limit_for_scan (some t) scan =
      match run_visits find_limit_visit (nodes t) { desc := scan, limit := 0 } with
      | .error e => .error e
      | .ok li => .ok li.limit := by
  unfold find_limit_for_scan find_limit_for_scan_walker
  simp only [walker_eq_run_visits]
  cases run_visits find_limit_visit (nodes t) { desc := scan, limit := 0 } <;> rfl

/-- C1: in a plan-state tree with at most one index scan carrying the descriptor
`scan` (and an input subtree under every Limit node), `find_limit_for_scan` returns
the constant count, read as an unsigned 64-bit value, of the offset-less Limit node
whose direct child is that index scan, and returns 0 when no Limit node with a
constant count and no offset has the scan as its direct child. -/
theorem find_limit_for_scan_spec (t : PlanState) (scan : IndexScanDesc)
    (hunique : scan_count scan t ≤ 1)
    (hinput : ∀ L ∈ nodes t, is_limit L = true → L.lefttree.isSome = true) :
    (∀ L ∈ nodes t, ∀ count, limit_binds scan count L →
        find_limit_for_scan (some t) scan = .ok (count % 2 ^ 64)) ∧
    ((∀ L ∈ nodes t, ∀ count, ¬ limit_binds scan count L) →
        find_limit_for_scan (some t) scan = .ok 0) := by
  constructor
  · intro L hL count hbinds
    rw [find_limit_for_scan_eq,
      run_limit_visits_binds scan (nodes t) _ rfl hinput
        (count_over_scan_le_one scan t hunique) L hL count hbinds]
    rfl
  · intro hnone
    rw [find_limit_for_scan_eq, run_limit_visits_none scan (nodes t) _ rfl hinput hnone]

/-- C1 on `Limit(5) -> IndexScan(7)` and on `Limit(count = 5, offset = 3) ->
IndexScan(7)`: the first reports 5, the second 0. -/
theorem find_limit_for_scan_spec_witness :
    find_limit_for_scan (some (limit_of 5 (index_scan 7))) 7 = .ok (5 % 2 ^ 64) ∧
    find_limit_for_scan (some limit_offset_tree) 7 = .ok 0 :=
  ⟨(find_limit_for_scan_spec (limit_of 5 (index_scan 7)) 7 (by decide) (by decide)).1
      (limit_of 5 (index_scan 7)) (root_mem_nodes _) 5 ⟨rfl, rfl⟩,
   (find_limit_for_scan_spec limit_offset_tree 7 (by decide) (by decide)).2
      (by
        intro L hL count hb
        have hL2 : L = limit_offset_tree ∨ L = index_scan 7 := by
          simpa [limit_offset_tree, index_scan, nodes, nodes_list, nodes_child] using hL
        rcases hL2 with h | h <;> subst h <;>
          simp [limit_binds, limit_offset_tree, index_scan, PlanState.plan] at hb)⟩

/-! ## `find_sort_and_limit_for_scan` on the Limit-over-Sort chain -/

/-- The code unwraps array types as the specification says. -/
theorem get_base_type_oid_eq_unwrapped (cat : Catalog) (typeOid : Oid) :
    get_base_type_oid cat typeOid = array_unwrapped_type cat typeOid := by
  unfold get_base_type_oid array_unwrapped_type
  by_cases h : cat.get_element_type typeOid = InvalidOid <;> simp [h]

theorem unsortable_type_cases (cat : Catalog) (scan : IndexScanDesc) (name : CString)
    (h : ¬ sortable_column cat scan name) :
    array_unwrapped_type cat (cat.get_atttype (cat.heapRelid scan)
        (cat.get_attnum (cat.heapRelid scan) name)) = TEXTOID ∨
      array_unwrapped_type cat (cat.get_atttype (cat.heapRelid scan)
        (cat.get_attnum (cat.heapRelid scan) name)) = TEXTARRAYOID ∨
      array_unwrapped_type cat (cat.get_atttype (cat.heapRelid scan)
        (cat.get_attnum (cat.heapRelid scan) name)) = BYTEAOID := by
  unfold sortable_column at h
  by_contra hcon
  apply h
  simp only [not_or] at hcon
  exact hcon

theorem find_sort_walker_on_chain (cat : Catalog) (count : Datum)
    (limit_tlist sort_tlist scan_tlist : List TargetEntry)
    (idx : AttrNumber) (idxs : List AttrNumber) (op : Oid) (ops : List Oid)
    (scan : IndexScanDesc) (te : TargetEntry) (si : SortInfo) (hdesc : si.desc = scan)
    (hkey : get_tle_by_resno sort_tlist idx = some te) :
    find_sort_for_scan_walker cat
        (limit_sort_scan count limit_tlist (idx :: idxs) (op :: ops) sort_tlist scan scan_tlist)
        si =
      .ok (false, { si with
        limit := DatumGetUInt64 count
        attname := some (cat.deparse_expression te.expr)
        direction := derived_direction cat te op }) := by
  simp [find_sort_for_scan_walker, limit_sort_scan, walker, walk_list, walk_child, and_then,
    find_sort_visit, PlanState.plan, PlanState.lefttree, hkey, hdesc, derived_direction]

/-- C3 fails on the plan of a UNION ALL of two ordered, limited index scans: the
first member is `Limit(20) -> Sort -> IndexScan(7)`, the second `Limit(10) -> Sort ->
IndexScan(8)`, and the limit reported for scan 7 is 10, the count of the Limit over
the Sort of scan 8, because the Limit branch of the walker never looks at the scan
under the Sort. -/
theorem limit_taken_from_other_scan :
    find_sort_and_limit_for_scan sample_catalog (some union_tree) 7 .SORTBY_DEFAULT 0 =
      .ok { attname := some price_name, direction := .SORTBY_DESC, limit := 10 } ∧
    find_sort_and_limit_for_scan sample_catalog
        (some (limit_of 20 (sort_on (.Other 1) 521 (index_scan 7)))) 7 .SORTBY_DEFAULT 0 =
      .ok { attname := some price_name, direction := .SORTBY_DESC, limit := 20 } := by
  constructor <;> rfl

/-- C4 as stated fails: on `Limit(10) -> Sort(description) -> IndexScan(7)`, where
`description` is a text column, no sort field is returned and the limit handed
back is not 10 but what the caller had stored in `*limit` (here 0). -/
theorem unsortable_sort_limit_not_reported :
    sample_catalog.get_attnum (sample_catalog.heapRelid 7) description_name ≠ InvalidAttrNumber ∧
    ¬ sortable_column sample_catalog 7 description_name ∧
    ∃ r, find_sort_and_limit_for_scan sample_catalog (some limit_sort_description_tree) 7
        .SORTBY_DEFAULT 0 = .ok r ∧ r.attname = none ∧ r.limit ≠ 10 := by
  refine ⟨by decide, by decide, ⟨{ attname := none, direction := .SORTBY_DEFAULT, limit := 0 },
    rfl, rfl, by decide⟩⟩

/-- C4, amended: on the tree that is exactly `Limit(constant count c, no offset) ->
Sort -> IndexScan(S)`, when the Sort's first key resolves to a heap column whose
array-unwrapped type is text, text[] or bytea, `find_sort_and_limit_for_scan(S)`
returns no sort field.  When the deparsed name of the key does not contain
`zdb_score` it reports no row limit either: it assigns neither `*limit` nor
`*direction`, which keep the values the caller stored in them.  When the name does
contain `zdb_score` the key is taken for the score pseudo-column, and `*limit` is
set to `c` and `*direction` to the direction derived from the first operator. -/
theorem find_sort_and_limit_unsortable (cat : Catalog) (count : Datum)
    (limit_tlist sort_tlist scan_tlist : List TargetEntry)
    (idx : AttrNumber) (idxs : List AttrNumber) (op : Oid) (ops : List Oid)
    (scan : IndexScanDesc) (te : TargetEntry) (direction : SortByDir) (limit : Nat)
    (hkey : get_tle_by_resno sort_tlist idx = some te)
    (hattr : cat.get_attnum (cat.heapRelid scan) (cat.deparse_expression te.expr) ≠
      InvalidAttrNumber)
    (htype : ¬ sortable_column cat scan (cat.deparse_expression te.expr)) :
    (strstr (cat.deparse_expression te.expr) zdb_score = false →
      find_sort_and_limit_for_scan cat
          (some (limit_sort_scan count limit_tlist (idx :: idxs) (op :: ops) sort_tlist
            scan scan_tlist))
          scan direction limit =
        .ok { attname := none, direction := direction, limit := limit }) ∧
    (strstr (cat.deparse_expression te.expr) zdb_score = true →
      find_sort_and_limit_for_scan cat
          (some (limit_sort_scan count limit_tlist (idx :: idxs) (op :: ops) sort_tlist
            scan scan_tlist))
          scan direction limit =
        .ok { attname := none
              direction := derived_direction cat te op
              limit := count % 2 ^ 64 }) := by
  have htype2 := unsortable_type_cases cat scan _ htype
  constructor
  · intro hscore
    unfold find_sort_and_limit_for_scan
    simp only [find_sort_walker_on_chain cat count limit_tlist sort_tlist scan_tlist idx idxs
      op ops scan te
      { desc := scan, limit := 0, attname := none, direction := .SORTBY_DEFAULT }
      rfl hkey, hscore, Bool.false_eq_true, if_false, hattr, get_base_type_oid_eq_unwrapped,
      htype2, if_true]
  · intro hscore
    unfold find_sort_and_limit_for_scan
    simp only [find_sort_walker_on_chain cat count limit_tlist sort_tlist scan_tlist idx idxs
      op ops scan te
      { desc := scan, limit := 0, attname := none, direction := .SORTBY_DEFAULT }
      rfl hkey, hscore, if_true, DatumGetUInt64]

/-- The amended C4 on `Limit(10) -> Sort -> IndexScan(7)` with `*limit = 3` and
`*direction = SORTBY_USING` on entry: sorted on the text column `description`
nothing is assigned; sorted on the text column `zdb_score_note` the limit 10 and
the direction are assigned. -/
theorem find_sort_and_limit_unsortable_witness :
    find_sort_and_limit_for_scan sample_catalog
        (some (limit_sort_scan 10 [] [1] [666] [{ expr := .Other 2, resno := 1 }] 7 []))
        7 .SORTBY_USING 3 =
      .ok { attname := none, direction := .SORTBY_USING, limit := 3 } ∧
    find_sort_and_limit_for_scan score_note_catalog
        (some (limit_sort_scan 10 [] [1] [666] [{ expr := .Other 4, resno := 1 }] 7 []))
        7 .SORTBY_USING 3 =
      .ok { attname := none
            direction := derived_direction score_note_catalog { expr := .Other 4, resno := 1 } 666
            limit := 10 % 2 ^ 64 } ∧
    derived_direction score_note_catalog { expr := .Other 4, resno := 1 } 666 =
      SortByDir.SORTBY_DESC :=
  ⟨(find_sort_and_limit_unsortable sample_catalog 10 [] [{ expr := .Other 2, resno := 1 }] []
      1 [] 666 [] 7 { expr := .Other 2, resno := 1 } .SORTBY_USING 3
      (by decide) (by decide) (by decide)).1 (by decide),
   (find_sort_and_limit_unsortable score_note_catalog 10 []
      [{ expr := .Other 4, resno := 1 }] []
      1 [] 666 [] 7 { expr := .Other 4, resno := 1 } .SORTBY_USING 3
      (by decide) (by decide) (by decide)).2 (by decide),
   by decide⟩

/-! ## The inspection of `find_sort_for_scan_walker`, node by node -/

theorem find_sort_visit_binds (cat : Catalog) (s : PlanState) (context : SortInfo)
    (te : TargetEntry) (op : Oid) (h : sort_binds context.desc te op s) :
    find_sort_visit cat s context =
      .ok { context with
            attname := some (cat.deparse_expression te.expr)
            direction := derived_direction cat te op } := by
  obtain ⟨hover, hkey⟩ := h
  unfold over_scan child_is_scan at hover
  unfold first_sort_key at hkey
  unfold find_sort_visit
  cases hl : s.lefttree with
  | none => simp [hl] at hover
  | some child =>
    simp only [hl, is_scan_of] at hover
    match hn : s.plan.node with
    | .Sort idxs ops =>
      cases idxs with
      | nil => simp [hn] at hkey
      | cons idx idxs =>
        cases ops with
        | nil => simp [hn] at hkey
        | cons op2 ops =>
          simp only [hn] at hkey
          cases ht : get_tle_by_resno s.plan.targetlist idx with
          | none => simp [ht] at hkey
          | some te2 =>
            simp only [ht, Option.some.injEq, Prod.mk.injEq] at hkey
            obtain ⟨h1, h2⟩ := hkey
            subst h1 h2
            cases hc : child.plan.node <;> simp_all [derived_direction]
    | .Limit a b => simp [hn] at hkey
    | .Result => simp [hn] at hkey
    | .IndexScan d => simp [hn] at hkey
    | .Other => simp [hn] at hkey

theorem first_sort_key_of_safe (scan : IndexScanDesc) (s : PlanState)
    (hwf : sort_walk_safe_node scan s = true) (hsort : is_sort s = true)
    (hover : over_scan scan s = true) :
    ∃ te op, sort_binds scan te op s := by
  unfold sort_walk_safe_node at hwf
  unfold is_sort at hsort
  unfold over_scan child_is_scan at hover
  match hn : s.plan.node with
  | .Sort idxs ops =>
    cases hl : s.lefttree with
    | none => simp [hl] at hover
    | some child =>
      simp only [hl] at hover
      simp only [hn, hl, hover, Bool.not_true, Bool.false_or] at hwf
      cases hk : first_sort_key s with
      | none => simp [hk] at hwf
      | some p =>
        refine ⟨p.1, p.2, ?_, hk⟩
        simp [over_scan, child_is_scan, hl, hover]
  | .Limit a b => simp [hn] at hsort
  | .Result => simp [hn] at hsort
  | .IndexScan d => simp [hn] at hsort
  | .Other => simp [hn] at hsort

theorem find_sort_visit_other (cat : Catalog) (n : PlanState) (context : SortInfo)
    (hwf : sort_walk_safe_node context.desc n = true)
    (hnot : ¬ (is_sort n = true ∧ over_scan context.desc n = true)) :
    ∃ c, find_sort_visit cat n context = .ok c ∧ c.desc = context.desc ∧
      c.attname = context.attname ∧ c.direction = context.direction := by
  unfold sort_walk_safe_node at hwf
  unfold is_sort over_scan child_is_scan at hnot
  unfold find_sort_visit
  match hn : n.plan.node with
  | .Limit a b =>
    cases a with
    | none => exact ⟨context, rfl, rfl, rfl, rfl⟩
    | some e =>
      cases e with
      | Other i => exact ⟨context, rfl, rfl, rfl, rfl⟩
      | Const v =>
        cases b with
        | some o => exact ⟨context, rfl, rfl, rfl, rfl⟩
        | none =>
          cases hl : n.lefttree with
          | none => simp [hn, hl] at hwf
          | some child =>
            simp only [hn, hl] at hwf
            simp only
            match hc : child.plan.node with
            | .Result =>
              simp only [hc] at hwf
              cases hg : child.lefttree with
              | none => simp [hg] at hwf
              | some g =>
                simp only
                cases hgn : g.plan.node <;>
                  first
                    | exact ⟨context, rfl, rfl, rfl, rfl⟩
                    | exact ⟨_, rfl, rfl, rfl, rfl⟩
            | .Sort x y => exact ⟨_, rfl, rfl, rfl, rfl⟩
            | .Limit x y => exact ⟨context, rfl, rfl, rfl, rfl⟩
            | .IndexScan d => exact ⟨context, rfl, rfl, rfl, rfl⟩
            | .Other => exact ⟨context, rfl, rfl, rfl, rfl⟩
  | .Sort idxs ops =>
    cases hl : n.lefttree with
    | none => simp [hn, hl] at hwf
    | some child =>
      simp only [hn, hl, true_and] at hnot
      simp only
      match hc : child.plan.node with
      | .IndexScan d =>
        have hd : ¬ d = context.desc := by
          intro hd
          apply hnot
          simp [is_scan_of, hc, hd]
        simp only [hd, if_false]
        exact ⟨context, rfl, rfl, rfl, rfl⟩
      | .Sort x y => exact ⟨context, rfl, rfl, rfl, rfl⟩
      | .Limit x y => exact ⟨context, rfl, rfl, rfl, rfl⟩
      | .Result => exact ⟨context, rfl, rfl, rfl, rfl⟩
      | .Other => exact ⟨context, rfl, rfl, rfl, rfl⟩
  | .Result => exact ⟨context, rfl, rfl, rfl, rfl⟩
  | .IndexScan d => exact ⟨context, rfl, rfl, rfl, rfl⟩
  | .Other => exact ⟨context, rfl, rfl, rfl, rfl⟩

theorem find_sort_visit_ok (cat : Catalog) (n : PlanState) (context : SortInfo)
    (hwf : sort_walk_safe_node context.desc n = true) :
    ∃ c, find_sort_visit cat n context = .ok c ∧ c.desc = context.desc := by
  by_cases h : is_sort n = true ∧ over_scan context.desc n = true
  · obtain ⟨te, op, hb⟩ := first_sort_key_of_safe context.desc n hwf h.1 h.2
    exact ⟨_, find_sort_visit_binds cat n context te op hb, rfl⟩
  · obtain ⟨c, hc, hd, _, _⟩ := find_sort_visit_other cat n context hwf h
    exact ⟨c, hc, hd⟩

/-! ## The inspections of `find_sort_for_scan_walker` along the visiting order -/

theorem run_sort_visits_ok (cat : Catalog) (scan : IndexScanDesc) :
    ∀ (l : List PlanState) (context : SortInfo), context.desc = scan →
      (∀ n ∈ l, sort_walk_safe_node scan n = true) →
      ∃ c, run_visits (find_sort_visit cat) l context = .ok c ∧ c.desc = scan
  | [], context, hdesc, _ => ⟨context, rfl, hdesc⟩
  | x :: xs, context, hdesc, hwf => by
    obtain ⟨c, hc, hd⟩ := find_sort_visit_ok cat x context
      (by rw [hdesc]; exact hwf x (List.mem_cons_self _ _))
    rw [run_visits, hc]
    exact run_sort_visits_ok cat scan xs c (hd.trans hdesc)
      (fun n hn => hwf n (List.mem_cons_of_mem _ hn))

theorem run_sort_visits_keeps (cat : Catalog) (scan : IndexScanDesc) :
    ∀ (l : List PlanState) (context : SortInfo), context.desc = scan →
      (∀ n ∈ l, sort_walk_safe_node scan n = true) →
      (∀ n ∈ l, ¬ (is_sort n = true ∧ over_scan scan n = true)) →
      ∃ c, run_visits (find_sort_visit cat) l context = .ok c ∧ c.desc = scan ∧
        c.attname = context.attname ∧ c.direction = context.direction
  | [], context, hdesc, _, _ => ⟨context, rfl, hdesc, rfl, rfl⟩
  | x :: xs, context, hdesc, hwf, hnone => by
    obtain ⟨c, hc, hd, ha, hdir⟩ := find_sort_visit_other cat x context
      (by rw [hdesc]; exact hwf x (List.mem_cons_self _ _))
      (by rw [hdesc]; exact hnone x (List.mem_cons_self _ _))
    obtain ⟨c2, hc2, hd2, ha2, hdir2⟩ := run_sort_visits_keeps cat scan xs c (hd.trans hdesc)
      (fun n hn => hwf n (List.mem_cons_of_mem _ hn))
      (fun n hn => hnone n (List.mem_cons_of_mem _ hn))
    rw [run_visits, hc]
    exact ⟨c2, hc2, hd2, ha2.trans ha, hdir2.trans hdir⟩

theorem run_sort_visits_binds (cat : Catalog) (scan : IndexScanDesc) :
    ∀ (l : List PlanState) (context : SortInfo), context.desc = scan →
      (∀ n ∈ l, sort_walk_safe_node scan n = true) →
      l.countP (over_scan scan) ≤ 1 →
      ∀ s ∈ l, ∀ te op, sort_binds scan te op s →
        ∃ c, run_visits (find_sort_visit cat) l context = .ok c ∧
          c.attname = some (cat.deparse_expression te.expr) ∧
          c.direction = derived_direction cat te op
  | [], _, _, _, _, s, hs, _, _, _ => by simp at hs
  | x :: xs, context, hdesc, hwf, hcount, s, hs, te, op, hbinds => by
    have hwf_xs : ∀ n ∈ xs, sort_walk_safe_node scan n = true :=
      fun n hn => hwf n (List.mem_cons_of_mem _ hn)
    rw [List.countP_cons] at hcount
    by_cases hx : over_scan scan x = true
    · have hzero : xs.countP (over_scan scan) = 0 := by
        simp only [hx, if_true] at hcount
        omega
      have hfree : ∀ m ∈ xs, over_scan scan m = false := by
        intro m hm
        cases hm2 : over_scan scan m with
        | false => rfl
        | true =>
          have := List.countP_pos_iff.mpr ⟨m, hm, hm2⟩
          omega
      have hsx : s = x := by
        rcases List.mem_cons.mp hs with h | h
        · exact h
        · have := hfree s h
          rw [hbinds.1] at this
          cases this
      subst hsx
      have hvisit := find_sort_visit_binds cat s context te op (by rw [hdesc]; exact hbinds)
      obtain ⟨c2, hc2, _, ha2, hdir2⟩ := run_sort_visits_keeps cat scan xs
        { context with
          attname := some (cat.deparse_expression te.expr)
          direction := derived_direction cat te op }
        hdesc hwf_xs
        (by
          intro m hm hboth
          have := hfree m hm
          rw [hboth.2] at this
          cases this)
      rw [run_visits, hvisit]
      exact ⟨c2, hc2, ha2, hdir2⟩
    · have hsxs : s ∈ xs := by
        rcases List.mem_cons.mp hs with h | h
        · subst h
          exact absurd hbinds.1 hx
        · exact h
      obtain ⟨c, hc, hd, _, _⟩ := find_sort_visit_other cat x context
        (by rw [hdesc]; exact hwf x (List.mem_cons_self _ _))
        (by rw [hdesc]; exact fun hboth => hx hboth.2)
      have hcount_xs : xs.countP (over_scan scan) ≤ 1 := by omega
      rw [run_visits, hc]
      exact run_sort_visits_binds cat scan xs c (hd.trans hdesc) hwf_xs hcount_xs s hsxs te op
        hbinds

/-- What `find_sort_and_limit_for_scan` makes of the context the walker leaves. -/
theorem find_sort_and_limit_of_run (cat : Catalog) (t : PlanState) (scan : IndexScanDesc)
    (direction : SortByDir) (limit : Nat) (si : SortInfo)
    (hrun : run_visits (find_sort_visit cat) (nodes t)
      { desc := scan, limit := 0, attname := none, direction := .SORTBY_DEFAULT } = .ok si) :
    find_sort_and_limit_for_scan cat (some t) scan direction limit =
      match si.attname with
      | none => .ok { attname := none, direction := direction, limit := limit }
      | some attname =>
        if strstr attname zdb_score = true then
          .ok { attname := none, direction := si.direction, limit := si.limit }
        else if cat.get_attnum (cat.heapRelid scan) attname = InvalidAttrNumber then
          .ok { attname := none, direction := direction, limit := limit }
        else if sortable_column cat scan attname then
          .ok { attname := some attname, direction := si.direction, limit := si.limit }
        else .ok { attname := none, direction := direction, limit := limit } := by
  unfold find_sort_and_limit_for_scan find_sort_for_scan_walker
  simp only [walker_eq_run_visits, hrun, completed]
  cases si.attname with
  | none => rfl
  | some attname =>
    simp only
    by_cases h1 : strstr attname zdb_score = true
    · simp only [h1, if_true]
    · by_cases h2 : cat.get_attnum (cat.heapRelid scan) attname = InvalidAttrNumber
      · simp only [h1, h2, if_true, if_false]
      · by_cases h3 : sortable_column cat scan attname
        · have h3b := h3
          unfold sortable_column at h3b
          obtain ⟨a, b, c⟩ := h3b
          simp only [h1, h2, h3, get_base_type_oid_eq_unwrapped, a, b, c, or_self, if_true,
            if_false]
        · have h3b := unsortable_type_cases cat scan attname h3
          simp only [h1, h2, h3, get_base_type_oid_eq_unwrapped, h3b, if_true, if_false]

theorem is_sort_of_sort_binds (scan : IndexScanDesc) (te : TargetEntry) (op : Oid)
    (s : PlanState) (h : sort_binds scan te op s) : is_sort s = true := by
  obtain ⟨_, hkey⟩ := h
  unfold first_sort_key at hkey
  unfold is_sort
  split at hkey
  · rename_i hn
    simp [hn]
  · cases hkey

/-! ## `find_sort_and_limit_for_scan` on arbitrary trees -/

/-- The sortability rule on the trees the walker reads without a fault: in such a
tree with at most one index scan carrying the descriptor `scan`,
`find_sort_and_limit_for_scan` returns the column name `name` if and only if some
Sort node has that index scan as its direct child, `name` is the deparsed name of
that Sort's first key, `name` does not contain `zdb_score`, it resolves to an
attribute of the scan's heap relation, and the attribute's array-unwrapped type is
none of text, text[], bytea. -/
theorem sort_field_iff (cat : Catalog) (t : PlanState) (scan : IndexScanDesc)
    (direction : SortByDir) (limit : Nat)
    (hunique : scan_count scan t ≤ 1) (hwf : sort_walk_safe scan t) :
    ∃ r, find_sort_and_limit_for_scan cat (some t) scan direction limit = .ok r ∧
      ∀ name, r.attname = some name ↔
        ∃ s ∈ nodes t, ∃ te op, sort_binds scan te op s ∧
          name = cat.deparse_expression te.expr ∧
          strstr name zdb_score = false ∧
          cat.get_attnum (cat.heapRelid scan) name ≠ InvalidAttrNumber ∧
          sortable_column cat scan name := by
  have hcount := count_over_scan_le_one scan t hunique
  by_cases hex : ∃ s ∈ nodes t, is_sort s = true ∧ over_scan scan s = true
  · obtain ⟨s, hs, hsort, hover⟩ := hex
    obtain ⟨te, op, hb⟩ := first_sort_key_of_safe scan s (hwf s hs) hsort hover
    obtain ⟨si, hrun, ha, _⟩ := run_sort_visits_binds cat scan (nodes t)
      { desc := scan, limit := 0, attname := none, direction := .SORTBY_DEFAULT }
      rfl hwf hcount s hs te op hb
    have hsame : ∀ s2 ∈ nodes t, ∀ te2 op2, sort_binds scan te2 op2 s2 →
        cat.deparse_expression te2.expr = cat.deparse_expression te.expr := by
      intro s2 hs2 te2 op2 hb2
      obtain ⟨si2, hrun2, ha2, _⟩ := run_sort_visits_binds cat scan (nodes t)
        { desc := scan, limit := 0, attname := none, direction := .SORTBY_DEFAULT }
        rfl hwf hcount s2 hs2 te2 op2 hb2
      rw [hrun] at hrun2
      cases hrun2
      rw [ha] at ha2
      exact (Option.some.inj ha2).symm
    have hres := find_sort_and_limit_of_run cat t scan direction limit si hrun
    rw [ha] at hres
    simp only at hres
    by_cases h1 : strstr (cat.deparse_expression te.expr) zdb_score = true
    · simp only [h1, if_true] at hres
      refine ⟨_, hres, fun name => ⟨fun h => (by simp at h), ?_⟩⟩
      rintro ⟨s2, hs2, te2, op2, hb2, hname, hk1, _, _⟩
      rw [hname, hsame s2 hs2 te2 op2 hb2, h1] at hk1
      cases hk1
    · by_cases h2 : cat.get_attnum (cat.heapRelid scan) (cat.deparse_expression te.expr) =
          InvalidAttrNumber
      · simp only [h1, h2, if_true, if_false] at hres
        refine ⟨_, hres, fun name => ⟨fun h => (by simp at h), ?_⟩⟩
        rintro ⟨s2, hs2, te2, op2, hb2, hname, _, hk2, _⟩
        rw [hname, hsame s2 hs2 te2 op2 hb2] at hk2
        exact absurd h2 hk2
      · by_cases h3 : sortable_column cat scan (cat.deparse_expression te.expr)
        · simp only [h1, h2, h3, if_true, if_false] at hres
          refine ⟨_, hres, fun name => ⟨fun h => ?_, ?_⟩⟩
          · have hname : cat.deparse_expression te.expr = name := Option.some.inj h
            subst hname
            exact ⟨s, hs, te, op, hb, rfl, by simpa using h1, h2, h3⟩
          · rintro ⟨s2, hs2, te2, op2, hb2, hname, _, _, _⟩
            rw [hname, hsame s2 hs2 te2 op2 hb2]
        · simp only [h1, h2, h3, if_true, if_false] at hres
          refine ⟨_, hres, fun name => ⟨fun h => (by simp at h), ?_⟩⟩
          rintro ⟨s2, hs2, te2, op2, hb2, hname, _, _, hk3⟩
          rw [hname, hsame s2 hs2 te2 op2 hb2] at hk3
          exact absurd hk3 h3
  · have hnone : ∀ n ∈ nodes t, ¬ (is_sort n = true ∧ over_scan scan n = true) :=
      fun n hn hboth => hex ⟨n, hn, hboth⟩
    obtain ⟨si, hrun, _, ha, _⟩ := run_sort_visits_keeps cat scan (nodes t)
      { desc := scan, limit := 0, attname := none, direction := .SORTBY_DEFAULT }
      rfl hwf hnone
    have hres := find_sort_and_limit_of_run cat t scan direction limit si hrun
    rw [ha] at hres
    simp only at hres
    refine ⟨_, hres, fun name => ⟨fun h => (by simp at h), ?_⟩⟩
    rintro ⟨s2, hs2, te2, op2, hb2, _⟩
    exact absurd ⟨is_sort_of_sort_binds scan te2 op2 s2 hb2, hb2.1⟩ (hnone s2 hs2)

/-- The direction rule on the trees the walker reads without a fault: in such a tree
with at most one index scan carrying the descriptor `scan`, when a Sort node sits
directly over that scan and its first key is the score pseudo-column or a sortable
heap column, the direction `find_sort_and_limit_for_scan` writes is DESC when the
Sort's first operator is the greater-than operator of the type of the first key's
expression, and ASC otherwise. -/
theorem sort_direction_spec (cat : Catalog) (t : PlanState) (scan : IndexScanDesc)
    (direction : SortByDir) (limit : Nat)
    (hunique : scan_count scan t ≤ 1) (hwf : sort_walk_safe scan t)
    (s : PlanState) (hs : s ∈ nodes t) (te : TargetEntry) (op : Oid)
    (hbinds : sort_binds scan te op s)
    (hkept : strstr (cat.deparse_expression te.expr) zdb_score = true ∨
      (cat.get_attnum (cat.heapRelid scan) (cat.deparse_expression te.expr) ≠
          InvalidAttrNumber ∧
        sortable_column cat scan (cat.deparse_expression te.expr))) :
    ∃ r, find_sort_and_limit_for_scan cat (some t) scan direction limit = .ok r ∧
      (op = cat.gt_opr (cat.exprType te.expr) → r.direction = .SORTBY_DESC) ∧
      (op ≠ cat.gt_opr (cat.exprType te.expr) → r.direction = .SORTBY_ASC) := by
  have hcount := count_over_scan_le_one scan t hunique
  obtain ⟨si, hrun, ha, hdir⟩ := run_sort_visits_binds cat scan (nodes t)
    { desc := scan, limit := 0, attname := none, direction := .SORTBY_DEFAULT }
    rfl hwf hcount s hs te op hbinds
  have hres := find_sort_and_limit_of_run cat t scan direction limit si hrun
  rw [ha] at hres
  simp only at hres
  have hgoal : ∀ r : SortAndLimit, r.direction = derived_direction cat te op →
      (op = cat.gt_opr (cat.exprType te.expr) → r.direction = .SORTBY_DESC) ∧
      (op ≠ cat.gt_opr (cat.exprType te.expr) → r.direction = .SORTBY_ASC) := by
    intro r hr
    rw [hr]
    unfold derived_direction
    constructor <;> intro h <;> simp [h]
  rcases hkept with h1 | ⟨h2, h3⟩
  · simp only [h1, if_true] at hres
    exact ⟨_, hres, hgoal _ hdir⟩
  · by_cases h1 : strstr (cat.deparse_expression te.expr) zdb_score = true
    · simp only [h1, if_true] at hres
      exact ⟨_, hres, hgoal _ hdir⟩
    · simp only [h1, h2, h3, if_true, if_false] at hres
      exact ⟨_, hres, hgoal _ hdir⟩

/-- The sortability rule on `Limit(10) -> Sort(price, int4gt) -> IndexScan(7)`. -/
theorem sort_field_iff_witness :
    scan_count 7 limit_sort_price_tree ≤ 1 ∧ sort_walk_safe 7 limit_sort_price_tree ∧
    ∃ r, find_sort_and_limit_for_scan sample_catalog (some limit_sort_price_tree) 7
        .SORTBY_DEFAULT 0 = .ok r ∧
      ∀ name, r.attname = some name ↔
        ∃ s ∈ nodes limit_sort_price_tree, ∃ te op, sort_binds 7 te op s ∧
          name = sample_catalog.deparse_expression te.expr ∧
          strstr name zdb_score = false ∧
          sample_catalog.get_attnum (sample_catalog.heapRelid 7) name ≠ InvalidAttrNumber ∧
          sortable_column sample_catalog 7 name :=
  ⟨by decide, by decide,
    sort_field_iff sample_catalog limit_sort_price_tree 7 .SORTBY_DEFAULT 0
      (by decide) (by decide)⟩

/-- The direction rule on `Sort(zdb_score, float4gt) -> IndexScan(7)`: the key is the score
pseudo-column and the operator is the greater-than operator of `float4`. -/
theorem sort_direction_spec_witness :
    ∃ r, find_sort_and_limit_for_scan sample_catalog (some sort_score_tree) 7
        .SORTBY_DEFAULT 0 = .ok r ∧
      (623 = sample_catalog.gt_opr
          (sample_catalog.exprType ({ expr := .Other 3, resno := 1 } : TargetEntry).expr) →
        r.direction = .SORTBY_DESC) ∧
      (623 ≠ sample_catalog.gt_opr
          (sample_catalog.exprType ({ expr := .Other 3, resno := 1 } : TargetEntry).expr) →
        r.direction = .SORTBY_ASC) :=
  sort_direction_spec sample_catalog sort_score_tree 7 .SORTBY_DEFAULT 0
    (by decide) (by decide) sort_score_tree (root_mem_nodes _)
    { expr := .Other 3, resno := 1 } 623 ⟨rfl, rfl⟩ (Or.inl (by decide))

/-! ## The unguarded read of the input of a Result under a Limit -/

/-- C5 fails on a plan the planner produces.  In `Sort(price, int4gt) ->
IndexScan(7)`, whose Sort node carries the init-plan `SELECT 1 LIMIT 1`, the Sort
sits directly over the one index scan with descriptor 7 and its first key `price`
is not the score, resolves to a heap column and has the sortable type `int4`; yet
`find_sort_and_limit_for_scan(7)` returns no name: at the Limit of the init-plan
the walker tests the node tag of the input of the Result, which is NULL.  On the
same tree without the init-plan the name `price` is returned. -/
theorem sort_field_lost_to_null_read :
    scan_count 7 order_by_price_with_initplan ≤ 1 ∧
    (∃ s ∈ nodes order_by_price_with_initplan, ∃ te op, sort_binds 7 te op s ∧
      sample_catalog.deparse_expression te.expr = price_name ∧
      strstr price_name zdb_score = false ∧
      sample_catalog.get_attnum (sample_catalog.heapRelid 7) price_name ≠ InvalidAttrNumber ∧
      sortable_column sample_catalog 7 price_name) ∧
    find_sort_and_limit_for_scan sample_catalog (some order_by_price_with_initplan) 7
        .SORTBY_DEFAULT 0 = .error .null_dereference ∧
    find_sort_and_limit_for_scan sample_catalog (some (sort_on (.Other 1) 521 (index_scan 7))) 7
        .SORTBY_DEFAULT 0 =
      .ok { attname := some price_name, direction := .SORTBY_DESC, limit := 0 } := by
  refine ⟨by decide, ⟨order_by_price_with_initplan, root_mem_nodes _,
    { expr := .Other 1, resno := 1 }, 521, ⟨rfl, rfl⟩, rfl, by decide, by decide, by decide⟩,
    rfl, rfl⟩

/-- C6 fails on a plan the planner produces.  In `Limit(10) -> Sort(zdb_score,
float4gt) -> IndexScan(7)`, whose Limit node carries the init-plan
`SELECT 1 LIMIT 1`, a Sort sits directly over the one index scan with descriptor 7,
its key is the score pseudo-column and its operator is the greater-than operator
of `float4`; yet `find_sort_and_limit_for_scan(7)` writes no direction: at the
Limit of the init-plan the walker tests the node tag of the input of the Result,
which is NULL.  On the same tree without the init-plan DESC is written. -/
theorem sort_direction_lost_to_null_read :
    scan_count 7 top_by_score_with_initplan ≤ 1 ∧
    (∃ s ∈ nodes top_by_score_with_initplan,
      sort_binds 7 { expr := .Other 3, resno := 1 } 623 s) ∧
    strstr (sample_catalog.deparse_expression (.Other 3)) zdb_score = true ∧
    623 = sample_catalog.gt_opr (sample_catalog.exprType (.Other 3)) ∧
    find_sort_and_limit_for_scan sample_catalog (some top_by_score_with_initplan) 7
        .SORTBY_DEFAULT 0 = .error .null_dereference ∧
    find_sort_and_limit_for_scan sample_catalog
        (some (limit_of 10 (sort_on (.Other 3) 623 (index_scan 7)))) 7 .SORTBY_DEFAULT 0 =
      .ok { attname := none, direction := .SORTBY_DESC, limit := 10 } := by
  refine ⟨by decide, ⟨sort_on (.Other 3) 623 (index_scan 7), ?_, ⟨rfl, rfl⟩⟩, by decide,
    by decide, rfl, rfl⟩
  simp [top_by_score_with_initplan, nodes, nodes_list, nodes_child, select_one_limit_one,
    limit_of, sort_on, index_scan]

/-! ## Faults and completion of the two analyses -/

/-- C9 as stated fails.  `find_sort_and_limit_for_scan` reads `sortColIdx[0]` of an
empty array at a Sort without sort keys directly over the target scan, and reads
through the NULL that `get_tle_by_resno` returns at a Sort whose first key index
names no target-list entry; it reads through a NULL input link at a Sort without
input, at a Limit with a literal count without input (where `find_limit_for_scan`
does so too), and at a Limit with a literal count over a Result without input.
None of these nodes is skipped. -/
theorem malformed_sort_faults :
    find_sort_and_limit_for_scan sample_catalog (some keyless_sort_tree) 7 .SORTBY_DEFAULT 0 =
      .error .out_of_bounds ∧
    find_sort_and_limit_for_scan sample_catalog (some dangling_key_tree) 7 .SORTBY_DEFAULT 0 =
      .error .null_dereference ∧
    find_sort_and_limit_for_scan sample_catalog (some inputless_sort_tree) 7 .SORTBY_DEFAULT 0 =
      .error .null_dereference ∧
    find_sort_and_limit_for_scan sample_catalog (some inputless_limit_tree) 7 .SORTBY_DEFAULT 0 =
      .error .null_dereference ∧
    find_limit_for_scan (some inputless_limit_tree) 7 = .error .null_dereference ∧
    find_sort_and_limit_for_scan sample_catalog (some select_one_limit_one) 7 .SORTBY_DEFAULT 0 =
      .error .null_dereference := by
  refine ⟨rfl, rfl, rfl, rfl, rfl, rfl⟩

theorem find_limit_visit_safe (n : PlanState) (context : LimitInfo)
    (hinput : is_literal_limit n = true → n.lefttree.isSome = true) :
    ∃ c, find_limit_visit n context = .ok c := by
  unfold find_limit_visit
  split
  · rename_i constvalue hnode
    have hsome := hinput (by simp [is_literal_limit, hnode])
    cases hl : n.lefttree with
    | none => simp [hl] at hsome
    | some child =>
      simp only
      split
      · split <;> exact ⟨_, rfl⟩
      · exact ⟨_, rfl⟩
  · exact ⟨_, rfl⟩

theorem run_limit_visits_safe :
    ∀ (l : List PlanState) (context : LimitInfo),
      (∀ n ∈ l, is_literal_limit n = true → n.lefttree.isSome = true) →
      ∃ c, run_visits find_limit_visit l context = .ok c
  | [], context, _ => ⟨context, rfl⟩
  | x :: xs, context, hinput => by
    obtain ⟨c, hc⟩ := find_limit_visit_safe x context (hinput x (List.mem_cons_self _ _))
    rw [run_visits, hc]
    exact run_limit_visits_safe xs c (fun n hn => hinput n (List.mem_cons_of_mem _ hn))

theorem visits_skip_computed_limit (cat : Catalog) (n : PlanState)
    (count offset : Option Expr) (hnode : n.plan.node = .Limit count offset)
    (hcount : ∀ v, count ≠ some (.Const v)) (c1 : SortInfo) (c2 : LimitInfo) :
    find_sort_visit cat n c1 = .ok c1 ∧ find_limit_visit n c2 = .ok c2 := by
  unfold find_sort_visit find_limit_visit
  rw [hnode]
  cases count with
  | none => exact ⟨rfl, rfl⟩
  | some e =>
    cases e with
    | Const v => exact absurd rfl (hcount v)
    | Other i => exact ⟨rfl, rfl⟩

/-- C9, amended.  On every plan tree in which each Limit with a literal count and
no offset has its input subtree, `find_limit_for_scan` completes without a fault.
On every plan tree in which, besides, each Sort has its input subtree, each Sort
directly over the target scan has a first sort key and operator whose key index
names an entry of its target list, and no Limit with a literal count and no offset
sits directly over a Result without input, `find_sort_and_limit_for_scan`
completes without a fault.  At a Limit whose count is not a literal both
inspections leave their context as it is, so the node does not match and the
traversal goes on. -/
theorem analyses_complete (cat : Catalog) (t : PlanState) (scan : IndexScanDesc)
    (direction : SortByDir) (limit : Nat) :
    (limit_inputs_present t → ∃ n, find_limit_for_scan (some t) scan = .ok n) ∧
    (sort_walk_safe scan t →
      ∃ r, find_sort_and_limit_for_scan cat (some t) scan direction limit = .ok r) ∧
    (∀ L ∈ nodes t, ∀ count offset, L.plan.node = .Limit count offset →
      (∀ v, count ≠ some (.Const v)) →
      ∀ (c1 : SortInfo) (c2 : LimitInfo),
        find_sort_visit cat L c1 = .ok c1 ∧ find_limit_visit L c2 = .ok c2) := by
  refine ⟨?_, ?_, ?_⟩
  · intro hlimit
    obtain ⟨c, hc⟩ := run_limit_visits_safe (nodes t) { desc := scan, limit := 0 } hlimit
    rw [find_limit_for_scan_eq, hc]
    exact ⟨_, rfl⟩
  · intro hsafe
    obtain ⟨si, hrun, _⟩ := run_sort_visits_ok cat scan (nodes t)
      { desc := scan, limit := 0, attname := none, direction := .SORTBY_DEFAULT } rfl hsafe
    rw [find_sort_and_limit_of_run cat t scan direction limit si hrun]
    cases si.attname with
    | none => exact ⟨_, rfl⟩
    | some attname =>
      simp only
      split_ifs <;> exact ⟨_, rfl⟩
  · intro L _ count offset hnode hcount c1 c2
    exact visits_skip_computed_limit cat L count offset hnode hcount c1 c2

/-- The amended C9 on `Limit(count = <expression>) -> Sort(price) -> IndexScan(7)`
and on `Limit(count = <expression>) -> Result`, the Result without input: both
analyses complete on both trees. -/
theorem analyses_complete_witness :
    (∃ n, find_limit_for_scan (some computed_limit_tree) 7 = .ok n) ∧
    (∃ r, find_sort_and_limit_for_scan sample_catalog (some computed_limit_tree) 7
      .SORTBY_DEFAULT 0 = .ok r) ∧
    (∀ L ∈ nodes computed_limit_tree, ∀ count offset, L.plan.node = .Limit count offset →
      (∀ v, count ≠ some (.Const v)) →
      ∀ (c1 : SortInfo) (c2 : LimitInfo),
        find_sort_visit sample_catalog L c1 = .ok c1 ∧ find_limit_visit L c2 = .ok c2) ∧
    (∃ n, find_limit_for_scan (some computed_limit_over_result) 7 = .ok n) ∧
    (∃ r, find_sort_and_limit_for_scan sample_catalog (some computed_limit_over_result) 7
      .SORTBY_DEFAULT 0 = .ok r) :=
  ⟨(analyses_complete sample_catalog computed_limit_tree 7 .SORTBY_DEFAULT 0).1 (by decide),
   (analyses_complete sample_catalog computed_limit_tree 7 .SORTBY_DEFAULT 0).2.1 (by decide),
   (analyses_complete sample_catalog computed_limit_tree 7 .SORTBY_DEFAULT 0).2.2,
   (analyses_complete sample_catalog computed_limit_over_result 7 .SORTBY_DEFAULT 0).1
     (by decide),
   (analyses_complete sample_catalog computed_limit_over_result 7 .SORTBY_DEFAULT 0).2.1
     (by decide)⟩

/-! ## `convert_xid` as a position on the 64-bit identifier line -/

theorem shift_or_eq_add (epoch xid : Nat) (hepoch : epoch < 2 ^ 32) (hxid : xid < 2 ^ 32) :
    shift_or epoch xid = 2 ^ 32 * epoch + xid := by
  unfold shift_or
  rw [Nat.shiftLeft_eq]
  have h : epoch * 2 ^ 32 % 2 ^ 64 = 2 ^ 32 * epoch := by omega
  rw [h, ← Nat.mul_add_lt_is_or hxid]

theorem precedes_iff_negative_distance (id1 id2 : Nat)
    (h1 : TransactionIdIsNormal id1 = true) (h2 : TransactionIdIsNormal id2 = true) :
    TransactionIdPrecedes id1 id2 = true ↔ toInt32 (sub32 id1 id2) < 0 := by
  simp [TransactionIdPrecedes, h1, h2]

theorem follows_iff_positive_distance (id1 id2 : Nat)
    (h1 : TransactionIdIsNormal id1 = true) (h2 : TransactionIdIsNormal id2 = true) :
    TransactionIdFollows id1 id2 = true ↔ 0 < toInt32 (sub32 id1 id2) := by
  simp [TransactionIdFollows, h1, h2]

theorem signed_distance_bounds (xid last : Nat) :
    -2 ^ 31 ≤ toInt32 (sub32 xid last) ∧ toInt32 (sub32 xid last) ≤ 2 ^ 31 - 1 := by
  unfold toInt32 sub32
  split_ifs <;> omega

theorem convert_xid_eq_position (state : TxidEpoch) (xid : Nat)
    (hlast : state.last_xid < 2 ^ 32) (hlastn : TransactionIdIsNormal state.last_xid = true)
    (hlow : 1 ≤ state.epoch) (hhigh : state.epoch ≤ 2 ^ 32 - 2)
    (hxid : xid < 2 ^ 32) (hnormal : TransactionIdIsNormal xid = true) :
    ((convert_xid state xid : Nat) : Int) =
      (state.epoch : Int) * 2 ^ 32 + (state.last_xid : Int) +
        toInt32 (sub32 xid state.last_xid) := by
  have hp := precedes_iff_negative_distance xid state.last_xid hnormal hlastn
  have hf := follows_iff_positive_distance xid state.last_xid hnormal hlastn
  have hdec : (state.epoch + 18446744073709551615) % 18446744073709551616 =
      state.epoch - 1 := by omega
  have hinc : (state.epoch + 1) % 18446744073709551616 = state.epoch + 1 := by omega
  by_cases h1 : state.last_xid < xid ∧ TransactionIdPrecedes xid state.last_xid = true
  · have hval : convert_xid state xid = shift_or (state.epoch - 1) xid := by
      simp [convert_xid, hnormal, h1.1, h1.2, hdec]
    have hneg := hp.mp h1.2
    rw [hval, shift_or_eq_add _ _ (by omega) hxid]
    unfold toInt32 sub32 at hneg ⊢
    split_ifs at hneg ⊢ <;> omega
  · by_cases h2 : xid < state.last_xid ∧ TransactionIdFollows xid state.last_xid = true
    · have h3 : ¬ (state.last_xid < xid) := by omega
      have hval : convert_xid state xid = shift_or (state.epoch + 1) xid := by
        simp [convert_xid, hnormal, h2.1, h2.2, h3, hinc]
      have hpos := hf.mp h2.2
      rw [hval, shift_or_eq_add _ _ (by omega) hxid]
      unfold toInt32 sub32 at hpos ⊢
      split_ifs at hpos ⊢ <;> omega
    · have hval : convert_xid state xid = shift_or state.epoch xid := by
        unfold convert_xid
        simp only [hnormal, Bool.not_true, Bool.false_eq_true, if_false, gt_iff_lt,
          Bool.and_eq_true, decide_eq_true_eq, h1, h2]
      have hnp : state.last_xid < xid → ¬ toInt32 (sub32 xid state.last_xid) < 0 :=
        fun h hneg => h1 ⟨h, hp.mpr hneg⟩
      have hnf : xid < state.last_xid → ¬ 0 < toInt32 (sub32 xid state.last_xid) :=
        fun h hpos => h2 ⟨h, hf.mpr hpos⟩
      rw [hval, shift_or_eq_add _ _ (by omega) hxid]
      unfold toInt32 sub32 at hnp hnf ⊢
      split_ifs at hnp hnf ⊢ <;> omega

/-- C11: in every allocator state with a normal 32-bit `last_xid` and
`1 ≤ epoch ≤ 2^32 - 2`, `convert_xid` of a normal 32-bit identifier, read as an
integer, is `epoch * 2^32 + last_xid + d`, where `d`, between `-2^31` and
`2^31 - 1`, is the signed 32-bit reading of `(xid - last_xid) mod 2^32`; hence,
in one state, `convert_xid a < convert_xid b` exactly when the signed distance of
`a` to `last_xid` is smaller than that of `b`. -/
theorem convert_xid_signed_distance (state : TxidEpoch)
    (hlast : state.last_xid < 2 ^ 32) (hlastn : TransactionIdIsNormal state.last_xid = true)
    (hlow : 1 ≤ state.epoch) (hhigh : state.epoch ≤ 2 ^ 32 - 2) :
    (∀ xid, xid < 2 ^ 32 → TransactionIdIsNormal xid = true →
      ((convert_xid state xid : Nat) : Int) =
          (state.epoch : Int) * 2 ^ 32 + (state.last_xid : Int) +
            toInt32 (sub32 xid state.last_xid) ∧
        -2 ^ 31 ≤ toInt32 (sub32 xid state.last_xid) ∧
        toInt32 (sub32 xid state.last_xid) ≤ 2 ^ 31 - 1) ∧
    (∀ a b, a < 2 ^ 32 → TransactionIdIsNormal a = true →
      b < 2 ^ 32 → TransactionIdIsNormal b = true →
      (convert_xid state a < convert_xid state b ↔
        toInt32 (sub32 a state.last_xid) < toInt32 (sub32 b state.last_xid))) := by
  constructor
  · intro xid hxid hnormal
    exact ⟨convert_xid_eq_position state xid hlast hlastn hlow hhigh hxid hnormal,
      signed_distance_bounds xid state.last_xid⟩
  · intro a b ha han hb hbn
    have hpa := convert_xid_eq_position state a hlast hlastn hlow hhigh ha han
    have hpb := convert_xid_eq_position state b hlast hlastn hlow hhigh hb hbn
    constructor
    · intro h
      have h2 : ((convert_xid state a : Nat) : Int) < ((convert_xid state b : Nat) : Int) :=
        Int.ofNat_lt.mpr h
      omega
    · intro h
      have h2 : ((convert_xid state a : Nat) : Int) < ((convert_xid state b : Nat) : Int) := by
        omega
      exact Int.ofNat_lt.mp h2

/-- C11 in the state `last_xid = 5`, `epoch = 7`: for instance the identifier
`2^32 - 3`, eight steps before `last_xid` across the wrap, sits at
`7 * 2^32 + 5 - 8`. -/
theorem convert_xid_signed_distance_witness :
    ((∀ xid, xid < 2 ^ 32 → TransactionIdIsNormal xid = true →
      ((convert_xid { last_xid := 5, epoch := 7 } xid : Nat) : Int) =
          ((7 : Nat) : Int) * 2 ^ 32 + ((5 : Nat) : Int) + toInt32 (sub32 xid 5) ∧
        -2 ^ 31 ≤ toInt32 (sub32 xid 5) ∧ toInt32 (sub32 xid 5) ≤ 2 ^ 31 - 1) ∧
    (∀ a b, a < 2 ^ 32 → TransactionIdIsNormal a = true →
      b < 2 ^ 32 → TransactionIdIsNormal b = true →
      (convert_xid { last_xid := 5, epoch := 7 } a <
          convert_xid { last_xid := 5, epoch := 7 } b ↔
        toInt32 (sub32 a 5) < toInt32 (sub32 b 5)))) ∧
    toInt32 (sub32 (2 ^ 32 - 3) 5) = -8 ∧
    convert_xid { last_xid := 5, epoch := 7 } (2 ^ 32 - 3) = 7 * 2 ^ 32 + 5 - 8 :=
  ⟨convert_xid_signed_distance { last_xid := 5, epoch := 7 }
      (by decide) (by decide) (by decide) (by decide),
    by decide, by decide⟩

end ZDB
